import Mathlib

/-!
Verification development for the synth-lab analysis-and-matching core.

Shallow embedding of two source modules:
  * the `AudioEngine` class (simulated-annealing optimizer, analytic
    spectral model, energy function, configuration bridge), and
  * the `Analyzer` class (normalization, silence check, dual FFT
    snapshots, pitch detection, release measurement, gatekeepers).

Modelling conventions:
  * JavaScript double arithmetic is modelled exactly over `ℚ`.
  * Transcendental `Math` functions (`log`, `log10`, `log2`, `exp`,
    `pow`, `cos`, `sin`, `sqrt`) and the constant `Math.PI` have no
    exact rational counterpart; they are abstracted as a bundle of
    uninterpreted rational functions (`JsMath`).  Theorems quantify
    over the bundle, and the few facts about real `sqrt`/`log10` a
    proof needs appear as explicit hypotheses.
  * `NaN`/`Infinity` produced by a JavaScript division is modelled by
    `Option ℚ` (`none` = non-finite); JavaScript comparisons against
    `NaN` are false, which `jsLtB` reproduces.
  * `null`/`undefined` values are modelled by `Option` as well.
-/

/-- Abstraction of the JavaScript `Math` object: uninterpreted rational
stand-ins for the transcendental functions and `Math.PI`. -/
structure JsMath where
  cosq : ℚ → ℚ
  sinq : ℚ → ℚ
  sqrtq : ℚ → ℚ
  log10q : ℚ → ℚ
  log2q : ℚ → ℚ
  logq : ℚ → ℚ
  expq : ℚ → ℚ
  powq : ℚ → ℚ → ℚ
  piq : ℚ

/-- JavaScript division: `x / 0` is `NaN` or `±Infinity`, modelled as
`none`; otherwise the exact rational quotient. -/
def jsDiv (a b : ℚ) : Option ℚ :=
  if b = 0 then none else some (a / b)

/-- Subtraction on possibly-non-finite values: `NaN` propagates. -/
def jsSub : Option ℚ → Option ℚ → Option ℚ
  | some a, some b => some (a - b)
  | _, _ => none

/-- JavaScript `<` on possibly-non-finite values: any comparison with
`NaN` is false. -/
def jsLtB : Option ℚ → Option ℚ → Bool
  | some a, some b => decide (a < b)
  | _, _ => false

/-- Non-strict comparison used to state "non-increasing or flat"
sequences of possibly-non-finite values; `none` is only flat-equal to
itself. -/
def optLeB : Option ℚ → Option ℚ → Bool
  | some a, some b => decide (a ≤ b)
  | none, none => true
  | _, _ => false

/-- Write at an integer index into a fixed-size numeric array: a
`Float32Array` write outside the index range is silently ignored. -/
def updAtZ (l : List ℚ) (i : ℤ) (f : ℚ → ℚ) : List ℚ :=
  if 0 ≤ i ∧ i.toNat < l.length then l.set i.toNat (f (l.getD i.toNat 0)) else l

/-!
## AudioEngine: data model (constructor of `AudioEngine`)
-/

/-- Closed enumeration of the string-keyed oscillator switch in
`estimateSynthSpectrum`; `other` covers every string hitting the
`default` branch. -/
inductive OscType
  | sawtooth
  | square
  | triangle
  | other
deriving DecidableEq

/-- The engine's parameter record (`this.currentParams`). -/
structure SynthParams where
  oscillatorType : OscType
  filterFreq : ℚ
  filterQ : ℚ
  distortionAmount : ℚ
  chorusWet : ℚ
  attack : ℚ
  decay : ℚ
  sustain : ℚ
  release : ℚ
  vibeDepth : ℚ
deriving DecidableEq

/-- The constructor's initial `currentParams`. -/
def defaultParams : SynthParams :=
  { oscillatorType := OscType.sawtooth
    filterFreq := 2000
    filterQ := 1
    distortionAmount := 0
    chorusWet := 0
    attack := 1/100
    decay := 1/5
    sustain := 1/2
    release := 1/2
    vibeDepth := 0 }

/-- The six keys of `paramRanges`, the mutable set of the annealing
search. -/
inductive MutKey
  | filterFreq
  | filterQ
  | distortionAmount
  | attack
  | decay
  | sustain
deriving DecidableEq

/-- The declared `{min, max}` bounds of `paramRanges`. -/
def paramRanges : MutKey → ℚ × ℚ
  | MutKey.filterFreq => (200, 8000)
  | MutKey.filterQ => (1/2, 10)
  | MutKey.distortionAmount => (0, 4/5)
  | MutKey.attack => (1/1000, 1/2)
  | MutKey.decay => (1/100, 1)
  | MutKey.sustain => (1/10, 1)

/-- Read the field a `MutKey` names. -/
def getParam (p : SynthParams) : MutKey → ℚ
  | MutKey.filterFreq => p.filterFreq
  | MutKey.filterQ => p.filterQ
  | MutKey.distortionAmount => p.distortionAmount
  | MutKey.attack => p.attack
  | MutKey.decay => p.decay
  | MutKey.sustain => p.sustain

/-- Update the field a `MutKey` names (spread-copy plus one key). -/
def setParam (p : SynthParams) : MutKey → ℚ → SynthParams
  | MutKey.filterFreq, v => { p with filterFreq := v }
  | MutKey.filterQ, v => { p with filterQ := v }
  | MutKey.distortionAmount, v => { p with distortionAmount := v }
  | MutKey.attack, v => { p with attack := v }
  | MutKey.decay, v => { p with decay := v }
  | MutKey.sustain, v => { p with sustain := v }

/-- `Object.keys(paramRanges)` insertion order, indexed by
`Math.floor(Math.random() * 6)`. -/
def keyAt (i : Fin 6) : MutKey :=
  match i.val with
  | 0 => MutKey.filterFreq
  | 1 => MutKey.filterQ
  | 2 => MutKey.distortionAmount
  | 3 => MutKey.attack
  | 4 => MutKey.decay
  | _ => MutKey.sustain

/-!
## AudioEngine: the analytic spectral model (`estimateSynthSpectrum`)
-/

/-- `this.lockedFrequency || 440`: JavaScript `||` falls through to 440
on every falsy value, i.e. on `null`/`undefined` (here `none`) and on a
stored `0` (a stored `NaN` is also falsy and is likewise absorbed into
`none`). -/
def fundamentalOf : Option ℚ → ℚ
  | none => 440
  | some x => if x = 0 then 440 else x

/-- The `switch (params.oscillatorType)` harmonic amplitude law. -/
def harmonicAmplitude (osc : OscType) (i : ℕ) : ℚ :=
  match osc with
  | OscType.sawtooth => 1 / i
  | OscType.square => if i % 2 = 1 then 1 / i else 0
  | OscType.triangle => if i % 2 = 1 then 1 / ((i : ℚ) * i) else 0
  | OscType.other => if i = 1 then 1 else 0

/-- `estimateSynthSpectrum(params)`: 128-bin analytic magnitude
spectrum.  For harmonics 1..16 of `lockedFrequency || 440`, the code
computes the oscillator amplitude law, a squared lowpass rolloff above
the cutoff, a resonance boost within ±10 % of the cutoff, and
accumulates into bin `Math.floor(freq / 172)` (the bin width is the
hard-coded constant 172); finally a flat proportional distortion boost
is applied when `distortionAmount > 0`. -/
def estimateSynthSpectrum (lockedFrequency : Option ℚ) (p : SynthParams) : List ℚ :=
  let fundamental := fundamentalOf lockedFrequency
  let base := (List.range' 1 16).foldl
    (fun spectrum (i : ℕ) =>
      let freq := fundamental * (i : ℚ)
      let bin : ℤ := Int.floor (freq / 172)
      if bin < 128 then
        let amplitude := harmonicAmplitude p.oscillatorType i
        let filterRolloff := if p.filterFreq < freq then (p.filterFreq / freq) ^ 2 else 1
        let amplitude :=
          if p.filterFreq * (9/10) < freq ∧ freq < p.filterFreq * (11/10) then
            amplitude * (1 + p.filterQ * (1/2))
          else amplitude
        updAtZ spectrum bin (fun x => x + amplitude * filterRolloff)
      else spectrum)
    (List.replicate 128 0)
  if 0 < p.distortionAmount then
    base.map (fun x => x + x * p.distortionAmount * (3/10))
  else base

/-- Modelled from the spec (§4.3): the reference definition of the
spectral estimator, parameterised by the bin width `binWidth` (the spec
prescribes `sampleRate / 2 / 128`); per harmonic the contribution is
amplitude-law × rolloff × resonance-boost, accumulated into
`floor(freq / binWidth)` when that bin is inside the 128-bin range. -/
def estimateSpectrumSpec (binWidth : ℚ) (lockedFrequency : Option ℚ) (p : SynthParams) : List ℚ :=
  let fundamental := fundamentalOf lockedFrequency
  let base := (List.range' 1 16).foldl
    (fun spectrum (h : ℕ) =>
      let freq := fundamental * (h : ℚ)
      let bin : ℤ := Int.floor (freq / binWidth)
      if 0 ≤ bin ∧ bin < 128 then
        let law := harmonicAmplitude p.oscillatorType h
        let rolloff := if p.filterFreq < freq then (p.filterFreq / freq) ^ 2 else 1
        let resonance :=
          if p.filterFreq * (9/10) < freq ∧ freq < p.filterFreq * (11/10) then
            1 + p.filterQ * (1/2)
          else 1
        updAtZ spectrum bin (fun x => x + law * rolloff * resonance)
      else spectrum)
    (List.replicate 128 0)
  if 0 < p.distortionAmount then
    base.map (fun x => x + x * p.distortionAmount * (3/10))
  else base

/-!
## AudioEngine: energy function (`calculateEnergy`)
-/

/-- A target spectrum as consumed by `calculateEnergy`: only its
`magnitudes` field is read. -/
structure Target where
  magnitudes : List ℚ
deriving DecidableEq

/-- `calculateEnergy(params, targetSpectrum)`: 1 when no target is
supplied, otherwise the summed squared difference of `log(mag + 1)`
over the first `min(est.length, target.length, 64)` bins, divided by
that length (`0 / 0 = NaN`, i.e. `none`, when the length is 0). -/
def calculateEnergy (m : JsMath) (lockedFrequency : Option ℚ) (p : SynthParams)
    (target : Option Target) : Option ℚ :=
  match target with
  | none => some 1
  | some t =>
    let synthResponse := estimateSynthSpectrum lockedFrequency p
    let targetMags := t.magnitudes
    let compareLength := min (min synthResponse.length targetMags.length) 64
    let energy := (List.range compareLength).foldl
      (fun acc i =>
        let diff := m.logq (synthResponse.getD i 0 + 1) - m.logq (targetMags.getD i 0 + 1)
        acc + diff * diff)
      0
    jsDiv energy compareLength

/-- Modelled from the spec (§4.4 energy function): mean squared error
of `log(mag + 1)` over the first `min(64, len(est), len(target))` bins;
energy 1 when no target spectrum is supplied. -/
def calculateEnergySpec (m : JsMath) (lockedFrequency : Option ℚ) (p : SynthParams)
    (target : Option Target) : Option ℚ :=
  match target with
  | none => some 1
  | some t =>
    let est := estimateSynthSpectrum lockedFrequency p
    let n := min 64 (min est.length t.magnitudes.length)
    jsDiv
      ((List.range n).foldl
        (fun acc i =>
          acc + (m.logq (est.getD i 0 + 1) - m.logq (t.magnitudes.getD i 0 + 1)) ^ 2)
        0)
      n

/-!
## AudioEngine: engine state, `applyParams`, `configure`
-/

/-- Observable engine/synth state: the parameter record plus the
settings of the audio nodes (`filter`, `distortion`, `chorus`, the
synth envelope and oscillator, the LFO) touched by `applyParams`,
`configure` and `setVibe`. -/
structure EngineState where
  isInitialized : Bool
  lockedFrequency : Option ℚ
  currentParams : SynthParams
  filterFreqNode : ℚ
  filterQNode : ℚ
  distortionNode : ℚ
  distortionWetNode : ℚ
  chorusWetNode : ℚ
  synthOsc : OscType
  synthAttack : ℚ
  synthDecay : ℚ
  synthSustain : ℚ
  synthRelease : ℚ
  lfoAmplitude : ℚ
  lfoFrequency : ℚ
deriving DecidableEq

/-- The engine state right after `initialize()` succeeds: constructor
defaults for `currentParams`/`lockedFrequency`, node settings as built
in `initialize`. -/
def initializedEngine : EngineState :=
  { isInitialized := true
    lockedFrequency := none
    currentParams := defaultParams
    filterFreqNode := 2000
    filterQNode := 1
    distortionNode := 0
    distortionWetNode := 0
    chorusWetNode := 0
    synthOsc := OscType.sawtooth
    synthAttack := 1/100
    synthDecay := 1/5
    synthSustain := 1/2
    synthRelease := 1/2
    lfoAmplitude := 0
    lfoFrequency := 5 }

/-- `applyParams(params)` as invoked by the annealing loop, where the
argument is always a complete parameter record (a spread-copy of
`currentParams`): every guarded branch of the source fires, so the
merge `{...currentParams, ...params}` is `params` itself and each node
setting is overwritten from `params`. -/
def applyParams (e : EngineState) (p : SynthParams) : EngineState :=
  { e with
    currentParams := p
    synthOsc := p.oscillatorType
    filterFreqNode := p.filterFreq
    filterQNode := p.filterQ
    distortionNode := p.distortionAmount
    distortionWetNode := if 0 < p.distortionAmount then 1 else 0
    chorusWetNode := p.chorusWet
    synthAttack := p.attack
    synthDecay := p.decay
    synthSustain := p.sustain
    synthRelease := p.release }

/-- The destructured `analysisResults` argument of `configure`;
`pitchHz` is `Option ℚ` because the analyzer's pitch may be `NaN`
(both `null` and `NaN` are falsy where the value is read). -/
structure AnalysisResults where
  detectedRelease : ℚ
  isWide : Bool
  pitchHz : Option ℚ

/-- `configure(analysisResults)`: early-out when not initialized;
otherwise store the detected release (params and synth envelope), set
the chorus wet to 0.5 when `isWide`, and store `pitchHz` as the locked
frequency. -/
def configure (e : EngineState) (r : AnalysisResults) : EngineState :=
  if e.isInitialized then
    let e1 := { e with
      currentParams := { e.currentParams with release := r.detectedRelease }
      synthRelease := r.detectedRelease }
    let e2 :=
      if r.isWide then
        { e1 with
          currentParams := { e1.currentParams with chorusWet := 1/2 }
          chorusWetNode := 1/2 }
      else e1
    { e2 with lockedFrequency := r.pitchHz }
  else e

/-!
## AudioEngine: the simulated-annealing loop (`runSimulatedAnnealing`)

The loop's `Math.random()` draws are modelled by three streams indexed
by the step number: the mutated-key index, the mutation draw, and the
acceptance draw.
-/

/-- Random draws of one annealing run, indexed by step. -/
structure RandStreams where
  keyDraw : ℕ → Fin 6
  mutDraw : ℕ → ℚ
  accDraw : ℕ → ℚ

/-- Mutable loop state: `currentParams`/`currentEnergy` and the best
tracker `bestParams`/`bestEnergy`. -/
structure AnnealState where
  currentParams : SynthParams
  currentEnergy : Option ℚ
  bestParams : SynthParams
  bestEnergy : Option ℚ
deriving DecidableEq

/-- One progress-callback invocation `{step, totalSteps, energy,
params}`. -/
structure Progress where
  step : ℕ
  totalSteps : ℕ
  energy : Option ℚ
  params : SynthParams
deriving DecidableEq

/-- The temperature schedule
`startTemp * Math.pow(endTemp / startTemp, step / steps)` with
`startTemp = 1.0`, `endTemp = 0.01`. -/
def annealTemp (m : JsMath) (steps n : ℕ) : ℚ :=
  1 * m.powq ((1/100) / 1) ((n : ℚ) / (steps : ℚ))

/-- The trial of step `n`: spread-copy `currentParams`, pick one key
from `paramRanges`, perturb it by
`(Math.random() - 0.5) * (max - min) * 0.2 * temp` and clamp to the
declared bounds. -/
def annealTrialParams (m : JsMath) (steps : ℕ) (r : RandStreams) (st : AnnealState) (n : ℕ) :
    SynthParams :=
  let temp := annealTemp m steps n
  let keyToMutate := keyAt (r.keyDraw n)
  let range := paramRanges keyToMutate
  let mutation := (r.mutDraw n - 1/2) * (range.2 - range.1) * (2/10) * temp
  setParam st.currentParams keyToMutate
    (max range.1 (min range.2 (getParam st.currentParams keyToMutate + mutation)))

/-- The Metropolis acceptance test
`delta < 0 || Math.random() < Math.exp(-delta / temp)`; when `delta`
is `NaN` (either energy non-finite) both disjuncts are false. -/
def annealAccepted (m : JsMath) (lockedFrequency : Option ℚ) (target : Option Target)
    (steps : ℕ) (r : RandStreams) (st : AnnealState) (n : ℕ) : Bool :=
  match jsSub (calculateEnergy m lockedFrequency (annealTrialParams m steps r st n) target)
      st.currentEnergy with
  | none => false
  | some d => decide (d < 0) || decide (r.accDraw n < m.expq (-(d / annealTemp m steps n)))

/-- One iteration of the annealing `for` loop: on acceptance the trial
becomes the current state, and the best tracker is updated only when
the new current energy is strictly below the best energy. -/
def annealNext (m : JsMath) (lockedFrequency : Option ℚ) (target : Option Target)
    (steps : ℕ) (r : RandStreams) (st : AnnealState) (n : ℕ) : AnnealState :=
  let newParams := annealTrialParams m steps r st n
  let newEnergy := calculateEnergy m lockedFrequency newParams target
  if annealAccepted m lockedFrequency target steps r st n then
    if jsLtB newEnergy st.bestEnergy then
      { currentParams := newParams, currentEnergy := newEnergy
        bestParams := newParams, bestEnergy := newEnergy }
    else
      { st with currentParams := newParams, currentEnergy := newEnergy }
  else st

/-- Loop state before the first iteration: `currentParams` is a copy of
the engine's parameter record, `bestParams` a copy of that, and both
energies are the initial energy. -/
def annealInit (m : JsMath) (lockedFrequency : Option ℚ) (target : Option Target)
    (p0 : SynthParams) : AnnealState :=
  let currentEnergy := calculateEnergy m lockedFrequency p0 target
  { currentParams := p0, currentEnergy := currentEnergy
    bestParams := p0, bestEnergy := currentEnergy }

/-- Loop state after `n` iterations. -/
def stateAfter (m : JsMath) (lockedFrequency : Option ℚ) (target : Option Target)
    (steps : ℕ) (r : RandStreams) (p0 : SynthParams) : ℕ → AnnealState
  | 0 => annealInit m lockedFrequency target p0
  | n + 1 => annealNext m lockedFrequency target steps r
      (stateAfter m lockedFrequency target steps r p0 n) n

/-- The trial parameter set produced at step `n` of the run. -/
def annealTrialAt (m : JsMath) (lockedFrequency : Option ℚ) (target : Option Target)
    (steps : ℕ) (r : RandStreams) (p0 : SynthParams) (n : ℕ) : SynthParams :=
  annealTrialParams m steps r (stateAfter m lockedFrequency target steps r p0 n) n

/-- The progress-callback invocation of step `n`: issued after the
acceptance/best update, carrying the best tracker of the post-step
state. -/
def annealProgressAt (m : JsMath) (lockedFrequency : Option ℚ) (target : Option Target)
    (steps : ℕ) (r : RandStreams) (p0 : SynthParams) (n : ℕ) : Progress :=
  { step := n
    totalSteps := steps
    energy := (stateAfter m lockedFrequency target steps r p0 (n + 1)).bestEnergy
    params := (stateAfter m lockedFrequency target steps r p0 (n + 1)).bestParams }

/-- The whole sequence of progress-callback invocations of a run. -/
def annealProgressList (m : JsMath) (lockedFrequency : Option ℚ) (target : Option Target)
    (steps : ℕ) (r : RandStreams) (p0 : SynthParams) : List Progress :=
  (List.range steps).map (annealProgressAt m lockedFrequency target steps r p0)

/-- `runSimulatedAnnealing(targetSpectrum, steps, onProgress)`: returns
`null` untouched when not initialized; otherwise runs the annealing
loop from a copy of `currentParams`, applies the best parameter set to
the engine via `applyParams`, and returns it.  The second component is
the list of progress-callback invocations, the third the JavaScript
return value. -/
def runSimulatedAnnealing (m : JsMath) (e : EngineState) (target : Option Target)
    (steps : ℕ) (r : RandStreams) : EngineState × List Progress × Option SynthParams :=
  if e.isInitialized then
    let fin := stateAfter m e.lockedFrequency target steps r e.currentParams steps
    (applyParams e fin.bestParams,
     annealProgressList m e.lockedFrequency target steps r e.currentParams,
     some fin.bestParams)
  else (e, [], none)

/-!
## Helper lemmas about the spectral model and energy function
-/

theorem updAtZ_length (l : List ℚ) (i : ℤ) (f : ℚ → ℚ) : (updAtZ l i f).length = l.length := by
  unfold updAtZ
  split_ifs with h
  · exact List.length_set l _ _
  · rfl

theorem updAtZ_of_neg (l : List ℚ) (i : ℤ) (f : ℚ → ℚ) (h : i < 0) : updAtZ l i f = l := by
  unfold updAtZ
  rw [if_neg]
  intro hc
  exact absurd hc.1 (not_le.mpr h)

theorem foldl_preserves_length {α : Type} (g : List ℚ → α → List ℚ)
    (hg : ∀ l a, (g l a).length = l.length) :
    ∀ (xs : List α) (l : List ℚ), (xs.foldl g l).length = l.length := by
  intro xs
  induction xs with
  | nil => intro l; rfl
  | cons x xs ih => intro l; rw [List.foldl_cons, ih]; exact hg l x

theorem length_estimateSynthSpectrum (lf : Option ℚ) (p : SynthParams) :
    (estimateSynthSpectrum lf p).length = 128 := by
  unfold estimateSynthSpectrum
  have hbase : ∀ (xs : List ℕ) (l : List ℚ),
      (xs.foldl (fun spectrum (i : ℕ) =>
        let freq := fundamentalOf lf * (i : ℚ)
        let bin : ℤ := Int.floor (freq / 172)
        if bin < 128 then
          let amplitude := harmonicAmplitude p.oscillatorType i
          let filterRolloff := if p.filterFreq < freq then (p.filterFreq / freq) ^ 2 else 1
          let amplitude :=
            if p.filterFreq * (9/10) < freq ∧ freq < p.filterFreq * (11/10) then
              amplitude * (1 + p.filterQ * (1/2))
            else amplitude
          updAtZ spectrum bin (fun x => x + amplitude * filterRolloff)
        else spectrum) l).length = l.length := by
    apply foldl_preserves_length
    intro l a
    dsimp only
    split_ifs <;> first | exact updAtZ_length _ _ _ | rfl
  split_ifs
  · rw [List.length_map, hbase, List.length_replicate]
  · rw [hbase, List.length_replicate]

theorem getD_set_self (l : List ℚ) (n : ℕ) (v : ℚ) (h : n < l.length) :
    (l.set n v).getD n 0 = v := by
  rw [List.getD_eq_getElem _ _ (by simpa using h)]
  exact List.getElem_set_self (by simpa using h)

theorem getD_set_other (l : List ℚ) (n m : ℕ) (v : ℚ) (h : n ≠ m) :
    (l.set n v).getD m 0 = l.getD m 0 := by
  by_cases hm : m < l.length
  · rw [List.getD_eq_getElem _ _ (by simpa using hm), List.getD_eq_getElem _ _ hm]
    exact List.getElem_set_ne h (by simpa using hm)
  · rw [List.getD_eq_default _ _ (by simpa using not_lt.mp hm),
      List.getD_eq_default _ _ (not_lt.mp hm)]

theorem getD_updAtZ (l : List ℚ) (i : ℤ) (f : ℚ → ℚ) (j : ℕ) (hj : j < l.length) :
    (updAtZ l i f).getD j 0 = if i = (j : ℤ) then f (l.getD j 0) else l.getD j 0 := by
  by_cases h : i = (j : ℤ)
  · subst h
    rw [if_pos rfl]
    unfold updAtZ
    rw [if_pos ⟨Int.natCast_nonneg j, by simpa using hj⟩]
    simp only [Int.toNat_natCast]
    exact getD_set_self l j _ hj
  · rw [if_neg h]
    unfold updAtZ
    split_ifs with hg
    · refine getD_set_other l _ j _ (fun hc => h ?_)
      rw [← hc, Int.toNat_of_nonneg hg.1]
    · rfl

theorem getElem_updAtZ (l : List ℚ) (i : ℤ) (f : ℚ → ℚ) (j : ℕ)
    (hj : j < (updAtZ l i f).length) :
    (updAtZ l i f)[j] = if i = (j : ℤ) then f (l.getD j 0) else l.getD j 0 := by
  have hj2 : j < l.length := by
    rw [updAtZ_length] at hj
    exact hj
  rw [← List.getD_eq_getElem _ 0 hj]
  exact getD_updAtZ l i f j hj2

theorem getD_replicate_zero (r j : ℕ) : (List.replicate r (0:ℚ)).getD j 0 = 0 := by
  by_cases h : j < r
  · rw [List.getD_eq_getElem _ _ (by simpa using h)]
    exact List.getElem_replicate 0 (by simpa using h)
  · exact List.getD_eq_default _ _ (by simpa using not_lt.mp h)

/-!
## Claim C4: the spectral model versus the spec's reference definition
-/

/-- One harmonic of the code's fold agrees with one harmonic of the
spec's reference fold at bin width 172: the products agree up to
reordering, the guards agree because a negative bin is silently
discarded by the `Float32Array` write on the code side and by the
range guard on the spec side. -/
theorem spectrumStep_eq (lf : Option ℚ) (p : SynthParams) (s : List ℚ) (i : ℕ) :
    (if Int.floor (fundamentalOf lf * (i : ℚ) / 172) < 128 then
      updAtZ s (Int.floor (fundamentalOf lf * (i : ℚ) / 172))
        (fun x => x +
          (if p.filterFreq * (9/10) < fundamentalOf lf * (i : ℚ) ∧
              fundamentalOf lf * (i : ℚ) < p.filterFreq * (11/10) then
            harmonicAmplitude p.oscillatorType i * (1 + p.filterQ * (1/2))
          else harmonicAmplitude p.oscillatorType i) *
          (if p.filterFreq < fundamentalOf lf * (i : ℚ) then
            (p.filterFreq / (fundamentalOf lf * (i : ℚ))) ^ 2
          else 1))
    else s)
    = (if (0 : ℤ) ≤ Int.floor (fundamentalOf lf * (i : ℚ) / 172) ∧
          Int.floor (fundamentalOf lf * (i : ℚ) / 172) < 128 then
      updAtZ s (Int.floor (fundamentalOf lf * (i : ℚ) / 172))
        (fun x => x +
          harmonicAmplitude p.oscillatorType i *
          (if p.filterFreq < fundamentalOf lf * (i : ℚ) then
            (p.filterFreq / (fundamentalOf lf * (i : ℚ))) ^ 2
          else 1) *
          (if p.filterFreq * (9/10) < fundamentalOf lf * (i : ℚ) ∧
              fundamentalOf lf * (i : ℚ) < p.filterFreq * (11/10) then
            1 + p.filterQ * (1/2)
          else 1))
    else s) := by
  by_cases h2 : Int.floor (fundamentalOf lf * (i : ℚ) / 172) < 128
  · by_cases h1 : (0 : ℤ) ≤ Int.floor (fundamentalOf lf * (i : ℚ) / 172)
    · have hc : (0 : ℤ) ≤ Int.floor (fundamentalOf lf * (i : ℚ) / 172) ∧
          Int.floor (fundamentalOf lf * (i : ℚ) / 172) < 128 := ⟨h1, h2⟩
      rw [if_pos h2, if_pos hc]
      refine congrArg _ (funext fun x => ?_)
      split_ifs <;> ring
    · have hc : ¬((0 : ℤ) ≤ Int.floor (fundamentalOf lf * (i : ℚ) / 172) ∧
          Int.floor (fundamentalOf lf * (i : ℚ) / 172) < 128) := fun hc => h1 hc.1
      rw [if_pos h2, if_neg hc, updAtZ_of_neg _ _ _ (not_le.mp h1)]
  · have hc : ¬((0 : ℤ) ≤ Int.floor (fundamentalOf lf * (i : ℚ) / 172) ∧
        Int.floor (fundamentalOf lf * (i : ℚ) / 172) < 128) := fun hc => h2 hc.2
    rw [if_neg h2, if_neg hc]

/-- C4 (amended): the spectral estimator agrees with the spec's
reference definition — per-oscillator amplitude law times lowpass
rolloff times resonance boost accumulated at `⌊freq / binWidth⌋`,
out-of-range harmonics ignored, distortion boost last — once the bin
width is taken to be the hard-coded constant 172 Hz instead of
`sampleRate / 2 / 128`. -/
theorem estimateSynthSpectrum_eq_spec_172 (lf : Option ℚ) (p : SynthParams) :
    estimateSynthSpectrum lf p = estimateSpectrumSpec 172 lf p := by
  unfold estimateSynthSpectrum estimateSpectrumSpec
  dsimp only
  congr 1
  · congr 1
    apply List.foldl_ext
    intro s i hi
    exact spectrumStep_eq lf p s i
  · apply List.foldl_ext
    intro s i hi
    exact spectrumStep_eq lf p s i

set_option maxRecDepth 10000 in
/-- C4 (counterexample): with the spec's bin width `sampleRate/2/128`
at the engine's 44.1 kHz rate (= 172.265625 Hz) the two definitions
disagree on the constructor's default parameters and the default
440 Hz fundamental: harmonic 9 (3960 Hz) lands in bin
`⌊3960/172⌋ = 23` in the code but in bin `⌊3960/172.265625⌋ = 22` in
the reference definition, so bin 23 holds `(1/9)·(2000/3960)² =
2500/88209` in the code's spectrum and `0` in the reference one. -/
theorem estimateSynthSpectrum_ne_spec_binwidth :
    ¬ (estimateSynthSpectrum none defaultParams
        = estimateSpectrumSpec (44100 / 2 / 128) none defaultParams) := by
  intro h
  have h23 : (estimateSynthSpectrum none defaultParams).getD 23 0
      = (estimateSpectrumSpec (44100 / 2 / 128) none defaultParams).getD 23 0 := by rw [h]
  have hcode : (estimateSynthSpectrum none defaultParams).getD 23 0 = 2500 / 88209 := by
    rw [estimateSynthSpectrum,
      show List.range' 1 16 = [1,2,3,4,5,6,7,8,9,10,11,12,13,14,15,16] from rfl]
    simp only [List.foldl_cons, List.foldl_nil]
    norm_num [fundamentalOf, defaultParams, harmonicAmplitude, getElem_updAtZ, getD_updAtZ,
      updAtZ_length, List.length_replicate, getD_replicate_zero]
  have hspec : (estimateSpectrumSpec (44100 / 2 / 128) none defaultParams).getD 23 0 = 0 := by
    rw [estimateSpectrumSpec,
      show List.range' 1 16 = [1,2,3,4,5,6,7,8,9,10,11,12,13,14,15,16] from rfl]
    simp only [List.foldl_cons, List.foldl_nil]
    norm_num [fundamentalOf, defaultParams, harmonicAmplitude, getElem_updAtZ, getD_updAtZ,
      updAtZ_length, List.length_replicate, getD_replicate_zero]
  rw [hcode, hspec] at h23
  norm_num at h23

/-!
## Claim C5: the energy function versus the spec's reference definition
-/

/-- C5: `calculateEnergy` equals the spec's reference definition for
every parameter set, target and `Math.log` interpretation: exactly 1
when no target spectrum is supplied, otherwise the mean squared error
of `log(mag+1)` over the first `min(64, len(estimated), len(target))`
bins (an empty comparison yields the non-finite `0/0`, identically on
both sides). -/
theorem calculateEnergy_eq_spec (m : JsMath) (lf : Option ℚ) (p : SynthParams)
    (target : Option Target) :
    calculateEnergy m lf p target = calculateEnergySpec m lf p target
    ∧ calculateEnergy m lf p none = some 1 := by
  refine ⟨?_, rfl⟩
  cases target with
  | none => rfl
  | some t =>
    simp only [calculateEnergy, calculateEnergySpec]
    rw [Nat.min_comm]
    refine congrArg (fun e => jsDiv e _) ?_
    apply List.foldl_ext
    intro acc i hi
    rw [pow_two]

/-!
## Claim C9: finiteness of the energy requires a non-empty target
-/

/-- C9: when a target spectrum is supplied, `calculateEnergy` is
non-finite (`0/0 = NaN`, modelled as `none`) exactly when the target's
magnitudes sequence is empty; a finite energy therefore requires at
least one magnitude bin. -/
theorem calculateEnergy_none_iff_empty_target (m : JsMath) (lf : Option ℚ)
    (p : SynthParams) (t : Target) :
    calculateEnergy m lf p (some t) = none ↔ t.magnitudes = [] := by
  have h128 := length_estimateSynthSpectrum lf p
  simp only [calculateEnergy, h128, jsDiv]
  by_cases hm : t.magnitudes = []
  · simp [hm]
  · have hlen : t.magnitudes.length ≠ 0 := fun hc => hm (List.length_eq_zero.mp hc)
    have hmin : min (min 128 t.magnitudes.length) 64 ≠ 0 := by omega
    have h1 : (0:ℚ) < (t.magnitudes.length : ℚ) := by exact_mod_cast Nat.pos_of_ne_zero hlen
    have h2 : (0:ℚ) < (t.magnitudes.length : ℚ) ⊓ 64 := lt_min h1 (by norm_num)
    simp [hmin, hm]
    exact h2.ne'

/-!
## Claim C10: the 440 Hz fallback fundamental
-/

theorem estimateSynthSpectrum_congr (lf1 lf2 : Option ℚ) (p : SynthParams)
    (h : fundamentalOf lf1 = fundamentalOf lf2) :
    estimateSynthSpectrum lf1 p = estimateSynthSpectrum lf2 p := by
  unfold estimateSynthSpectrum
  rw [h]

/-- C10 (amended): `estimateSynthSpectrum` falls back to a fundamental
of 440 Hz exactly when the stored locked frequency is absent
(`null`/`NaN`, unset as after the constructor) or zero; any other
stored value — including a non-positive, negative one — is used
unchanged; and `configure` stores `pitchHz` as the locked frequency
verbatim whenever the engine is initialized. -/
theorem fallback_fundamental_440 :
    (∀ p, estimateSynthSpectrum none p = estimateSynthSpectrum (some 440) p)
    ∧ (∀ p, estimateSynthSpectrum (some 0) p = estimateSynthSpectrum (some 440) p)
    ∧ fundamentalOf none = 440
    ∧ fundamentalOf (some 0) = 440
    ∧ (∀ x : ℚ, fundamentalOf (some x) = if x = 0 then 440 else x)
    ∧ initializedEngine.lockedFrequency = none
    ∧ (∀ (e : EngineState) (r : AnalysisResults),
        (configure e r).lockedFrequency
          = if e.isInitialized then r.pitchHz else e.lockedFrequency) := by
  refine ⟨fun p => estimateSynthSpectrum_congr _ _ p (by norm_num [fundamentalOf]),
    fun p => estimateSynthSpectrum_congr _ _ p (by norm_num [fundamentalOf]),
    rfl, by norm_num [fundamentalOf], fun x => rfl, rfl, fun e r => ?_⟩
  by_cases h : e.isInitialized <;> simp [configure, h]

set_option maxRecDepth 10000 in
/-- C10 (counterexample): the claim's reading that the fallback fires
"whenever configure has not stored a positive pitchHz" fails: after
`configure` stores the non-positive pitch −1, the estimator uses the
fundamental −1 — every harmonic maps to the negative bin ⌊−i/172⌋ = −1
and is dropped, yielding the all-zero spectrum — instead of falling
back to the 440 Hz series (whose spectrum holds 1 at bin 2). -/
theorem configure_negative_pitch_counterexample :
    (configure initializedEngine
        { detectedRelease := 1/2, isWide := false, pitchHz := some (-1) }).lockedFrequency
      = some (-1)
    ∧ ¬ (0 < (-1 : ℚ))
    ∧ fundamentalOf (some (-1)) = -1
    ∧ (estimateSynthSpectrum (some (-1)) defaultParams).getD 2 0 = 0
    ∧ (estimateSynthSpectrum none defaultParams).getD 2 0 = 1
    ∧ estimateSynthSpectrum (some (-1)) defaultParams
        ≠ estimateSynthSpectrum none defaultParams := by
  have hneg : (estimateSynthSpectrum (some (-1)) defaultParams).getD 2 0 = 0 := by
    rw [estimateSynthSpectrum,
      show List.range' 1 16 = [1,2,3,4,5,6,7,8,9,10,11,12,13,14,15,16] from rfl]
    simp only [List.foldl_cons, List.foldl_nil]
    norm_num [fundamentalOf, defaultParams, harmonicAmplitude, getElem_updAtZ, getD_updAtZ,
      updAtZ_length, List.length_replicate, getD_replicate_zero, updAtZ_of_neg]
  have h440 : (estimateSynthSpectrum none defaultParams).getD 2 0 = 1 := by
    rw [estimateSynthSpectrum,
      show List.range' 1 16 = [1,2,3,4,5,6,7,8,9,10,11,12,13,14,15,16] from rfl]
    simp only [List.foldl_cons, List.foldl_nil]
    norm_num [fundamentalOf, defaultParams, harmonicAmplitude, getElem_updAtZ, getD_updAtZ,
      updAtZ_length, List.length_replicate, getD_replicate_zero]
  refine ⟨by simp [configure, initializedEngine], by norm_num,
    by norm_num [fundamentalOf], hneg, h440, fun h => ?_⟩
  rw [h, h440] at hneg
  exact absurd hneg (by norm_num)

/-!
## Helper lemmas about the annealing loop
-/

theorem jsLtB_none_left (x : Option ℚ) : jsLtB none x = false := by
  cases x <;> rfl

theorem jsLtB_none_right (x : Option ℚ) : jsLtB x none = false := by
  cases x <;> rfl

theorem jsLtB_irrefl (x : Option ℚ) : jsLtB x x = false := by
  cases x with
  | none => rfl
  | some a => simp [jsLtB]

theorem jsLtB_some_iff (a b : ℚ) : jsLtB (some a) (some b) = true ↔ a < b := by
  simp [jsLtB]

theorem jsLtB_trans_false (e b c : Option ℚ) (h1 : jsLtB e b = false) (h2 : jsLtB c b = true) :
    jsLtB e c = false := by
  cases c with
  | none => exact jsLtB_none_right e
  | some cv =>
    cases b with
    | none => simp [jsLtB] at h2
    | some bv =>
      cases e with
      | none => exact jsLtB_none_left _
      | some ev =>
        simp [jsLtB] at h1 h2 ⊢
        linarith

theorem optLeB_refl (x : Option ℚ) : optLeB x x = true := by
  cases x with
  | none => rfl
  | some a => simp [optLeB]

theorem optLeB_trans (a b c : Option ℚ) (h1 : optLeB a b = true) (h2 : optLeB b c = true) :
    optLeB a c = true := by
  cases a <;> cases b <;> cases c <;> simp [optLeB] at h1 h2 ⊢
  linarith

theorem optLeB_of_jsLtB (a b : Option ℚ) (h : jsLtB a b = true) : optLeB a b = true := by
  cases a <;> cases b <;> simp [jsLtB, optLeB] at h ⊢
  linarith

theorem jsSub_eq_some (x y : Option ℚ) (d : ℚ) (h : jsSub x y = some d) :
    ∃ a b, x = some a ∧ y = some b ∧ d = a - b := by
  cases x <;> cases y <;> simp [jsSub] at h ⊢
  exact h.symm

theorem jsSub_eq_none (x y : Option ℚ) (h : jsSub x y = none) : x = none ∨ y = none := by
  cases x <;> cases y <;> simp [jsSub] at h ⊢

theorem annealAccepted_imp_some (m : JsMath) (lf : Option ℚ) (t : Option Target)
    (steps : ℕ) (r : RandStreams) (st : AnnealState) (n : ℕ)
    (h : annealAccepted m lf t steps r st n = true) :
    ∃ a b, calculateEnergy m lf (annealTrialParams m steps r st n) t = some a
      ∧ st.currentEnergy = some b := by
  unfold annealAccepted at h
  rcases hsub : jsSub (calculateEnergy m lf (annealTrialParams m steps r st n) t)
      st.currentEnergy with _ | d
  · rw [hsub] at h
    simp at h
  · obtain ⟨a, b, ha, hb, _⟩ := jsSub_eq_some _ _ _ hsub
    exact ⟨a, b, ha, hb⟩

theorem annealAccepted_false_delta (m : JsMath) (lf : Option ℚ) (t : Option Target)
    (steps : ℕ) (r : RandStreams) (st : AnnealState) (n : ℕ)
    (h : annealAccepted m lf t steps r st n = false) :
    jsSub (calculateEnergy m lf (annealTrialParams m steps r st n) t) st.currentEnergy = none
    ∨ ∃ d, jsSub (calculateEnergy m lf (annealTrialParams m steps r st n) t) st.currentEnergy
        = some d ∧ 0 ≤ d := by
  unfold annealAccepted at h
  rcases hsub : jsSub (calculateEnergy m lf (annealTrialParams m steps r st n) t)
      st.currentEnergy with _ | d
  · exact Or.inl rfl
  · rw [hsub] at h
    simp only [Bool.or_eq_false_iff, decide_eq_false_iff_not, not_lt] at h
    exact Or.inr ⟨d, rfl, h.1⟩

theorem annealNext_cases (m : JsMath) (lf : Option ℚ) (t : Option Target)
    (steps : ℕ) (r : RandStreams) (st : AnnealState) (n : ℕ) :
    (annealAccepted m lf t steps r st n = false ∧ annealNext m lf t steps r st n = st)
    ∨ (annealAccepted m lf t steps r st n = true
      ∧ jsLtB (calculateEnergy m lf (annealTrialParams m steps r st n) t) st.bestEnergy = false
      ∧ annealNext m lf t steps r st n
        = { st with
            currentParams := annealTrialParams m steps r st n,
            currentEnergy := calculateEnergy m lf (annealTrialParams m steps r st n) t })
    ∨ (annealAccepted m lf t steps r st n = true
      ∧ jsLtB (calculateEnergy m lf (annealTrialParams m steps r st n) t) st.bestEnergy = true
      ∧ annealNext m lf t steps r st n
        = { currentParams := annealTrialParams m steps r st n,
            currentEnergy := calculateEnergy m lf (annealTrialParams m steps r st n) t,
            bestParams := annealTrialParams m steps r st n,
            bestEnergy := calculateEnergy m lf (annealTrialParams m steps r st n) t }) := by
  unfold annealNext
  cases hacc : annealAccepted m lf t steps r st n with
  | false => exact Or.inl ⟨rfl, by simp⟩
  | true =>
    cases hlt : jsLtB (calculateEnergy m lf (annealTrialParams m steps r st n) t)
        st.bestEnergy with
    | false => exact Or.inr (Or.inl ⟨rfl, rfl, by simp [hlt]⟩)
    | true => exact Or.inr (Or.inr ⟨rfl, rfl, by simp [hlt]⟩)

/-- Invariant of the annealing loop state: both energies are the
energies of their parameter sets, the best tracker is never strictly
above the current state in the JavaScript order, and a non-finite
current energy forces a non-finite best energy. -/
def AnnealInv (m : JsMath) (lf : Option ℚ) (t : Option Target) (st : AnnealState) : Prop :=
  st.currentEnergy = calculateEnergy m lf st.currentParams t
  ∧ st.bestEnergy = calculateEnergy m lf st.bestParams t
  ∧ jsLtB st.currentEnergy st.bestEnergy = false
  ∧ (st.currentEnergy = none → st.bestEnergy = none)

theorem annealInv_init (m : JsMath) (lf : Option ℚ) (t : Option Target) (p0 : SynthParams) :
    AnnealInv m lf t (annealInit m lf t p0) :=
  ⟨rfl, rfl, jsLtB_irrefl _, fun h => h⟩

theorem annealInv_next (m : JsMath) (lf : Option ℚ) (t : Option Target)
    (steps : ℕ) (r : RandStreams) (st : AnnealState) (n : ℕ)
    (hinv : AnnealInv m lf t st) : AnnealInv m lf t (annealNext m lf t steps r st n) := by
  rcases annealNext_cases m lf t steps r st n with ⟨_, heq⟩ | ⟨hacc, hlt, heq⟩ | ⟨hacc, hlt, heq⟩
  · rw [heq]
    exact hinv
  · rw [heq]
    refine ⟨rfl, hinv.2.1, hlt, fun hc => ?_⟩
    obtain ⟨a, _, ha, _⟩ := annealAccepted_imp_some m lf t steps r st n hacc
    rw [ha] at hc
    exact absurd hc (by simp)
  · rw [heq]
    exact ⟨rfl, rfl, jsLtB_irrefl _, fun h => h⟩

theorem annealInv_stateAfter (m : JsMath) (lf : Option ℚ) (t : Option Target)
    (steps : ℕ) (r : RandStreams) (p0 : SynthParams) :
    ∀ n, AnnealInv m lf t (stateAfter m lf t steps r p0 n) := by
  intro n
  induction n with
  | zero => exact annealInv_init m lf t p0
  | succ n ih => exact annealInv_next m lf t steps r _ n ih

theorem bestEnergy_step (m : JsMath) (lf : Option ℚ) (t : Option Target)
    (steps : ℕ) (r : RandStreams) (st : AnnealState) (n : ℕ) :
    optLeB (annealNext m lf t steps r st n).bestEnergy st.bestEnergy = true := by
  rcases annealNext_cases m lf t steps r st n with ⟨_, heq⟩ | ⟨_, _, heq⟩ | ⟨_, hlt, heq⟩
  · rw [heq]
    exact optLeB_refl _
  · rw [heq]
    exact optLeB_refl _
  · rw [heq]
    exact optLeB_of_jsLtB _ _ hlt

theorem bestEnergy_antitone (m : JsMath) (lf : Option ℚ) (t : Option Target)
    (steps : ℕ) (r : RandStreams) (p0 : SynthParams) :
    ∀ i j, i ≤ j →
      optLeB (stateAfter m lf t steps r p0 j).bestEnergy
        (stateAfter m lf t steps r p0 i).bestEnergy = true := by
  intro i j h
  induction j with
  | zero =>
    rw [Nat.le_zero.mp h]
    exact optLeB_refl _
  | succ j ih =>
    rcases Nat.lt_or_ge i (j + 1) with hlt | hge
    · exact optLeB_trans _ _ _ (bestEnergy_step m lf t steps r _ j)
        (ih (Nat.lt_succ_iff.mp hlt))
    · rw [Nat.le_antisymm h hge]
      exact optLeB_refl _

theorem best_not_beaten (m : JsMath) (lf : Option ℚ) (t : Option Target)
    (steps : ℕ) (r : RandStreams) (p0 : SynthParams) :
    ∀ n, jsLtB (calculateEnergy m lf p0 t) (stateAfter m lf t steps r p0 n).bestEnergy = false
      ∧ ∀ j, j < n →
        jsLtB (calculateEnergy m lf (annealTrialAt m lf t steps r p0 j) t)
          (stateAfter m lf t steps r p0 n).bestEnergy = false := by
  intro n
  induction n with
  | zero =>
    refine ⟨jsLtB_irrefl _, fun j hj => absurd hj (Nat.not_lt_zero j)⟩
  | succ n ih =>
    have hinv := annealInv_stateAfter m lf t steps r p0 n
    have hstep : stateAfter m lf t steps r p0 (n + 1)
        = annealNext m lf t steps r (stateAfter m lf t steps r p0 n) n := rfl
    have htrial : annealTrialAt m lf t steps r p0 n
        = annealTrialParams m steps r (stateAfter m lf t steps r p0 n) n := rfl
    rcases annealNext_cases m lf t steps r (stateAfter m lf t steps r p0 n) n with
      ⟨hacc, heq⟩ | ⟨hacc, hlt, heq⟩ | ⟨hacc, hlt, heq⟩
    · rw [hstep, heq]
      refine ⟨ih.1, fun j hj => ?_⟩
      rcases Nat.lt_or_ge j n with hjn | hjn
      · exact ih.2 j hjn
      · have hj_eq : j = n := Nat.le_antisymm (Nat.lt_succ_iff.mp hj) hjn
        subst hj_eq
        rw [htrial]
        rcases annealAccepted_false_delta m lf t steps r _ j hacc with hnone | ⟨d, hd, hdpos⟩
        · rcases jsSub_eq_none _ _ hnone with he | hc
          · rw [he]
            exact jsLtB_none_left _
          · rw [hinv.2.2.2 hc]
            exact jsLtB_none_right _
        · obtain ⟨a, b, ha, hb, hab⟩ := jsSub_eq_some _ _ _ hd
          rw [ha]
          have hcb := hinv.2.2.1
          rw [hb] at hcb
          rcases hbe : (stateAfter m lf t steps r p0 j).bestEnergy with _ | c
          · exact jsLtB_none_right _
          · rw [hbe] at hcb
            simp [jsLtB] at hcb ⊢
            have : b ≤ a := by linarith [hab ▸ hdpos]
            linarith
    · rw [hstep, heq]
      refine ⟨ih.1, fun j hj => ?_⟩
      rcases Nat.lt_or_ge j n with hjn | hjn
      · exact ih.2 j hjn
      · have hj_eq : j = n := Nat.le_antisymm (Nat.lt_succ_iff.mp hj) hjn
        subst hj_eq
        rw [htrial]
        exact hlt
    · rw [hstep, heq]
      refine ⟨jsLtB_trans_false _ _ _ ih.1 hlt, fun j hj => ?_⟩
      rcases Nat.lt_or_ge j n with hjn | hjn
      · exact jsLtB_trans_false _ _ _ (ih.2 j hjn) hlt
      · have hj_eq : j = n := Nat.le_antisymm (Nat.lt_succ_iff.mp hj) hjn
        subst hj_eq
        rw [htrial]
        exact jsLtB_irrefl _

theorem best_mem_seen (m : JsMath) (lf : Option ℚ) (t : Option Target)
    (steps : ℕ) (r : RandStreams) (p0 : SynthParams) :
    ∀ n, (stateAfter m lf t steps r p0 n).bestParams = p0
      ∨ ∃ j, j < n ∧ (stateAfter m lf t steps r p0 n).bestParams
          = annealTrialAt m lf t steps r p0 j := by
  intro n
  induction n with
  | zero => exact Or.inl rfl
  | succ n ih =>
    have hstep : stateAfter m lf t steps r p0 (n + 1)
        = annealNext m lf t steps r (stateAfter m lf t steps r p0 n) n := rfl
    rcases annealNext_cases m lf t steps r (stateAfter m lf t steps r p0 n) n with
      ⟨_, heq⟩ | ⟨_, _, heq⟩ | ⟨_, _, heq⟩
    · rw [hstep, heq]
      rcases ih with h | ⟨j, hj, hje⟩
      · exact Or.inl h
      · exact Or.inr ⟨j, Nat.lt_succ_of_lt hj, hje⟩
    · rw [hstep, heq]
      rcases ih with h | ⟨j, hj, hje⟩
      · exact Or.inl h
      · exact Or.inr ⟨j, Nat.lt_succ_of_lt hj, hje⟩
    · rw [hstep, heq]
      exact Or.inr ⟨n, Nat.lt_succ_self n, rfl⟩

theorem paramRanges_min_le_max (k : MutKey) : (paramRanges k).1 ≤ (paramRanges k).2 := by
  cases k <;> norm_num [paramRanges]

theorem getParam_setParam_self (p : SynthParams) (k : MutKey) (v : ℚ) :
    getParam (setParam p k v) k = v := by
  cases k <;> rfl

theorem getParam_setParam_other (p : SynthParams) (k k2 : MutKey) (v : ℚ) (h : k ≠ k2) :
    getParam (setParam p k v) k2 = getParam p k2 := by
  cases k <;> cases k2 <;> first | rfl | exact absurd rfl h

/-- A parameter set is bounds-respecting relative to the initial set
when every field is either untouched or inside its declared range. -/
def InBoundsOrInit (p0 p : SynthParams) : Prop :=
  ∀ k, getParam p k = getParam p0 k
    ∨ ((paramRanges k).1 ≤ getParam p k ∧ getParam p k ≤ (paramRanges k).2)

theorem trialParams_bounds (m : JsMath) (steps : ℕ) (r : RandStreams)
    (st : AnnealState) (n : ℕ) (p0 : SynthParams)
    (h : InBoundsOrInit p0 st.currentParams) :
    InBoundsOrInit p0 (annealTrialParams m steps r st n) := by
  intro k
  unfold annealTrialParams
  by_cases hk : keyAt (r.keyDraw n) = k
  · subst hk
    rw [getParam_setParam_self]
    refine Or.inr ⟨le_max_left _ _, max_le (paramRanges_min_le_max _) (min_le_left _ _)⟩
  · rw [getParam_setParam_other _ _ _ _ hk]
    exact h k

theorem anneal_bounds (m : JsMath) (lf : Option ℚ) (t : Option Target)
    (steps : ℕ) (r : RandStreams) (p0 : SynthParams) :
    ∀ n, InBoundsOrInit p0 (stateAfter m lf t steps r p0 n).currentParams
      ∧ InBoundsOrInit p0 (stateAfter m lf t steps r p0 n).bestParams := by
  intro n
  induction n with
  | zero => exact ⟨fun k => Or.inl rfl, fun k => Or.inl rfl⟩
  | succ n ih =>
    have hstep : stateAfter m lf t steps r p0 (n + 1)
        = annealNext m lf t steps r (stateAfter m lf t steps r p0 n) n := rfl
    rcases annealNext_cases m lf t steps r (stateAfter m lf t steps r p0 n) n with
      ⟨_, heq⟩ | ⟨_, _, heq⟩ | ⟨_, _, heq⟩
    · rw [hstep, heq]
      exact ih
    · rw [hstep, heq]
      exact ⟨trialParams_bounds m steps r _ n p0 ih.1, ih.2⟩
    · rw [hstep, heq]
      exact ⟨trialParams_bounds m steps r _ n p0 ih.1,
        trialParams_bounds m steps r _ n p0 ih.1⟩

theorem annealProgressList_length (m : JsMath) (lf : Option ℚ) (t : Option Target)
    (steps : ℕ) (r : RandStreams) (p0 : SynthParams) :
    (annealProgressList m lf t steps r p0).length = steps := by
  simp [annealProgressList]

theorem annealProgressList_get (m : JsMath) (lf : Option ℚ) (t : Option Target)
    (steps : ℕ) (r : RandStreams) (p0 : SynthParams) (i : ℕ)
    (hi : i < (annealProgressList m lf t steps r p0).length) :
    (annealProgressList m lf t steps r p0).get ⟨i, hi⟩
      = annealProgressAt m lf t steps r p0 i := by
  have hi2 : i < steps := by
    rw [annealProgressList_length] at hi
    exact hi
  simp [annealProgressList]

theorem runSimulatedAnnealing_outs (m : JsMath) (e : EngineState) (t : Option Target)
    (steps : ℕ) (r : RandStreams) (hinit : e.isInitialized = true) :
    (runSimulatedAnnealing m e t steps r).2.1
      = annealProgressList m e.lockedFrequency t steps r e.currentParams := by
  simp [runSimulatedAnnealing, hinit]

theorem runSimulatedAnnealing_result (m : JsMath) (e : EngineState) (t : Option Target)
    (steps : ℕ) (r : RandStreams) (hinit : e.isInitialized = true) :
    (runSimulatedAnnealing m e t steps r).2.2
      = some (stateAfter m e.lockedFrequency t steps r e.currentParams steps).bestParams := by
  simp [runSimulatedAnnealing, hinit]

/-!
## Claim C1: the best tracker of the annealing optimizer
-/

/-- C1: for every initialized run of the annealing optimizer (any
steps ≥ 1, any target spectrum, any random draws, any interpretation
of the transcendental functions) the best tracker is correct: the
progress callback fires once per step carrying an energy that is the
energy of the parameter set it carries; that pair is the best state
seen so far — never strictly beaten (in the JavaScript order) by the
initial state or by any trial of the run up to and including the
current one, and itself either the initial state or one of those
trials; the reported energies are non-increasing (or flat, including
the all-`NaN` flat case) step over step; and the value returned by
`runSimulatedAnnealing` is exactly the parameter set of the last
callback, the best-seen parameter set — not merely the last-accepted
trial. -/
theorem runSimulatedAnnealing_best_tracker (m : JsMath) (e : EngineState)
    (target : Option Target) (steps : ℕ) (r : RandStreams)
    (hinit : e.isInitialized = true) (hsteps : 1 ≤ steps) :
    let outs := (runSimulatedAnnealing m e target steps r).2.1
    let energyOf := fun p => calculateEnergy m e.lockedFrequency p target
    let trialAt := annealTrialAt m e.lockedFrequency target steps r e.currentParams
    outs.length = steps
    ∧ (∀ i, ∀ hi : i < outs.length,
        (outs.get ⟨i, hi⟩).step = i
        ∧ (outs.get ⟨i, hi⟩).totalSteps = steps
        ∧ (outs.get ⟨i, hi⟩).energy = energyOf ((outs.get ⟨i, hi⟩).params)
        ∧ jsLtB (energyOf e.currentParams) ((outs.get ⟨i, hi⟩).energy) = false
        ∧ (∀ j, j ≤ i → jsLtB (energyOf (trialAt j)) ((outs.get ⟨i, hi⟩).energy) = false)
        ∧ ((outs.get ⟨i, hi⟩).params = e.currentParams
            ∨ ∃ j, j ≤ i ∧ (outs.get ⟨i, hi⟩).params = trialAt j))
    ∧ (∀ i j, ∀ hi : i < outs.length, ∀ hj : j < outs.length, i ≤ j →
        optLeB ((outs.get ⟨j, hj⟩).energy) ((outs.get ⟨i, hi⟩).energy) = true)
    ∧ (∀ hl : steps - 1 < outs.length,
        (runSimulatedAnnealing m e target steps r).2.2
          = some ((outs.get ⟨steps - 1, hl⟩).params)) := by
  intro outs energyOf trialAt
  have houts : outs = annealProgressList m e.lockedFrequency target steps r e.currentParams :=
    runSimulatedAnnealing_outs m e target steps r hinit
  have hget : ∀ i (hi : i < outs.length),
      outs.get ⟨i, hi⟩
        = annealProgressAt m e.lockedFrequency target steps r e.currentParams i := by
    intro i hi
    rw [List.get_of_eq houts ⟨i, hi⟩]
    exact annealProgressList_get m e.lockedFrequency target steps r e.currentParams i _
  refine ⟨by rw [houts]; exact annealProgressList_length m _ target steps r _, ?_, ?_, ?_⟩
  · intro i hi
    rw [hget i hi]
    have hinv := annealInv_stateAfter m e.lockedFrequency target steps r e.currentParams (i + 1)
    have hseen := best_not_beaten m e.lockedFrequency target steps r e.currentParams (i + 1)
    have hmem := best_mem_seen m e.lockedFrequency target steps r e.currentParams (i + 1)
    refine ⟨rfl, rfl, hinv.2.1, hseen.1, fun j hj => hseen.2 j (Nat.lt_succ_of_le hj), ?_⟩
    rcases hmem with h | ⟨j, hj, hje⟩
    · exact Or.inl h
    · exact Or.inr ⟨j, Nat.lt_succ_iff.mp hj, hje⟩
  · intro i j hi hj hij
    rw [hget i hi, hget j hj]
    exact bestEnergy_antitone m e.lockedFrequency target steps r e.currentParams (i + 1) (j + 1)
      (Nat.succ_le_succ hij)
  · intro hl
    rw [hget (steps - 1) hl, runSimulatedAnnealing_result m e target steps r hinit]
    have hsucc : steps - 1 + 1 = steps := Nat.succ_pred_eq_of_pos hsteps
    rw [annealProgressAt, hsucc]

/-!
## Claim C3: bounds of the returned best parameter set
-/

/-- C3: every mutated parameter of the returned best parameter set
lies within its declared bounds — each field of the result is either
the engine's initial value, untouched by any mutation, or lies inside
its `paramRanges` interval (mutations are clamped, so a mutated field
can never leave its range). -/
theorem runSimulatedAnnealing_bounds (m : JsMath) (e : EngineState)
    (target : Option Target) (steps : ℕ) (r : RandStreams) (bp : SynthParams)
    (hinit : e.isInitialized = true) (hsteps : 1 ≤ steps)
    (hres : (runSimulatedAnnealing m e target steps r).2.2 = some bp) :
    ∀ k, getParam bp k = getParam e.currentParams k
      ∨ ((paramRanges k).1 ≤ getParam bp k ∧ getParam bp k ≤ (paramRanges k).2) := by
  rw [runSimulatedAnnealing_result m e target steps r hinit] at hres
  have hbp := Option.some.inj hres
  rw [← hbp]
  exact (anneal_bounds m e.lockedFrequency target steps r e.currentParams steps).2

/-!
## Claim C2: the optimizer's effect on engine state
-/

/-- C2 (amended): an initialized run's only effect on the engine is
the single `applyParams` call on the returned best parameter set: the
final engine state is exactly `applyParams` of the initial state at
the returned set (so `currentParams` and the filter, distortion,
chorus and envelope node settings are overwritten from it), while the
fields `applyParams` does not touch — `isInitialized`,
`lockedFrequency` and the LFO settings — are unchanged. -/
theorem runSimulatedAnnealing_frame (m : JsMath) (e : EngineState)
    (target : Option Target) (steps : ℕ) (r : RandStreams)
    (hinit : e.isInitialized = true) :
    ∃ bp outs, runSimulatedAnnealing m e target steps r = (applyParams e bp, outs, some bp)
      ∧ (applyParams e bp).isInitialized = e.isInitialized
      ∧ (applyParams e bp).lockedFrequency = e.lockedFrequency
      ∧ (applyParams e bp).lfoAmplitude = e.lfoAmplitude
      ∧ (applyParams e bp).lfoFrequency = e.lfoFrequency := by
  refine ⟨(stateAfter m e.lockedFrequency target steps r e.currentParams steps).bestParams,
    annealProgressList m e.lockedFrequency target steps r e.currentParams,
    ?_, rfl, rfl, rfl, rfl⟩
  simp [runSimulatedAnnealing, hinit]

/-!
## Concrete run used by the witnesses and the C2 counterexample
-/

/-- A concrete interpretation of the `Math` bundle. -/
def jsMathEx : JsMath :=
  { cosq := fun _ => 0
    sinq := fun _ => 0
    sqrtq := fun x => x
    log10q := fun _ => -10
    log2q := fun _ => 0
    logq := fun _ => 0
    expq := fun _ => 0
    powq := fun _ _ => 0
    piq := 0 }

/-- Constant random draws. -/
def randEx : RandStreams :=
  { keyDraw := fun _ => 0
    mutDraw := fun _ => 0
    accDraw := fun _ => 0 }

/-- An initialized engine whose distortion node setting (0.3, as after
`setVibe('modern')`) disagrees with `currentParams.distortionAmount`
(0.2). -/
def engineEx : EngineState :=
  { initializedEngine with
    currentParams := { defaultParams with distortionAmount := 1/5 }
    distortionNode := 3/10 }

theorem annealNextEx (lf : Option ℚ) (st : AnnealState) (hcur : st.currentEnergy = some 1) :
    annealNext jsMathEx lf none 1 randEx st 0 = st := by
  have hacc : annealAccepted jsMathEx lf none 1 randEx st 0 = false := by
    unfold annealAccepted
    rw [show calculateEnergy jsMathEx lf (annealTrialParams jsMathEx 1 randEx st 0) none
        = some 1 from rfl, hcur]
    norm_num [jsSub, jsMathEx, randEx]
  rcases annealNext_cases jsMathEx lf none 1 randEx st 0 with
    ⟨_, heq⟩ | ⟨hacc2, _, _⟩ | ⟨hacc2, _, _⟩
  · exact heq
  · rw [hacc] at hacc2
    exact absurd hacc2 (by simp)
  · rw [hacc] at hacc2
    exact absurd hacc2 (by simp)

theorem runSimulatedAnnealingEx (e : EngineState) (h : e.isInitialized = true) :
    (runSimulatedAnnealing jsMathEx e none 1 randEx).1 = applyParams e e.currentParams
    ∧ (runSimulatedAnnealing jsMathEx e none 1 randEx).2.2 = some e.currentParams := by
  have hst : stateAfter jsMathEx e.lockedFrequency none 1 randEx e.currentParams 1
      = annealInit jsMathEx e.lockedFrequency none e.currentParams := by
    show annealNext jsMathEx e.lockedFrequency none 1 randEx
      (stateAfter jsMathEx e.lockedFrequency none 1 randEx e.currentParams 0) 0 = _
    exact annealNextEx e.lockedFrequency _ rfl
  constructor <;> simp [runSimulatedAnnealing, h, hst, annealInit]

/-- C2 (counterexample): the claim "all engine state observable
outside the optimizer is unchanged after `runSimulatedAnnealing`
returns" is false on the code: starting from an engine whose
distortion node holds 0.3 while `currentParams.distortionAmount` is
0.2, a one-step run (target absent, so every energy is the neutral 1
and the trial is rejected) still ends with `applyParams` overwriting
the distortion node to 0.2 — the engine state differs. -/
theorem runSimulatedAnnealing_mutates_state :
    (runSimulatedAnnealing jsMathEx engineEx none 1 randEx).1 ≠ engineEx := by
  intro h
  have hd := congrArg EngineState.distortionNode h
  rw [(runSimulatedAnnealingEx engineEx rfl).1] at hd
  simp [applyParams, engineEx, initializedEngine, defaultParams] at hd
  norm_num at hd

/-- Witness for the C1 theorem at a concrete run: the initialized
engine, one step, no target, constant draws. -/
theorem runSimulatedAnnealing_best_tracker_witness :
    initializedEngine.isInitialized = true ∧ 1 ≤ 1
    ∧ (let outs := (runSimulatedAnnealing jsMathEx initializedEngine none 1 randEx).2.1
      let energyOf := fun p => calculateEnergy jsMathEx initializedEngine.lockedFrequency p none
      let trialAt := annealTrialAt jsMathEx initializedEngine.lockedFrequency none 1 randEx
        initializedEngine.currentParams
      outs.length = 1
      ∧ (∀ i, ∀ hi : i < outs.length,
          (outs.get ⟨i, hi⟩).step = i
          ∧ (outs.get ⟨i, hi⟩).totalSteps = 1
          ∧ (outs.get ⟨i, hi⟩).energy = energyOf ((outs.get ⟨i, hi⟩).params)
          ∧ jsLtB (energyOf initializedEngine.currentParams) ((outs.get ⟨i, hi⟩).energy) = false
          ∧ (∀ j, j ≤ i → jsLtB (energyOf (trialAt j)) ((outs.get ⟨i, hi⟩).energy) = false)
          ∧ ((outs.get ⟨i, hi⟩).params = initializedEngine.currentParams
              ∨ ∃ j, j ≤ i ∧ (outs.get ⟨i, hi⟩).params = trialAt j))
      ∧ (∀ i j, ∀ hi : i < outs.length, ∀ hj : j < outs.length, i ≤ j →
          optLeB ((outs.get ⟨j, hj⟩).energy) ((outs.get ⟨i, hi⟩).energy) = true)
      ∧ (∀ hl : 1 - 1 < outs.length,
          (runSimulatedAnnealing jsMathEx initializedEngine none 1 randEx).2.2
            = some ((outs.get ⟨1 - 1, hl⟩).params))) :=
  ⟨rfl, le_refl 1,
    runSimulatedAnnealing_best_tracker jsMathEx initializedEngine none 1 randEx rfl (le_refl 1)⟩

/-- Witness for the C3 theorem at the same concrete run; the returned
best parameter set is the constructor's default record. -/
theorem runSimulatedAnnealing_bounds_witness :
    initializedEngine.isInitialized = true ∧ 1 ≤ 1
    ∧ (runSimulatedAnnealing jsMathEx initializedEngine none 1 randEx).2.2 = some defaultParams
    ∧ ∀ k, getParam defaultParams k = getParam initializedEngine.currentParams k
      ∨ ((paramRanges k).1 ≤ getParam defaultParams k
          ∧ getParam defaultParams k ≤ (paramRanges k).2) :=
  ⟨rfl, le_refl 1, (runSimulatedAnnealingEx initializedEngine rfl).2,
    runSimulatedAnnealing_bounds jsMathEx initializedEngine none 1 randEx defaultParams rfl
      (le_refl 1) ((runSimulatedAnnealingEx initializedEngine rfl).2)⟩

/-- Witness for the C2 (amended) theorem at a concrete run. -/
theorem runSimulatedAnnealing_frame_witness :
    engineEx.isInitialized = true
    ∧ (∃ bp outs, runSimulatedAnnealing jsMathEx engineEx none 1 randEx
          = (applyParams engineEx bp, outs, some bp)
        ∧ (applyParams engineEx bp).isInitialized = engineEx.isInitialized
        ∧ (applyParams engineEx bp).lockedFrequency = engineEx.lockedFrequency
        ∧ (applyParams engineEx bp).lfoAmplitude = engineEx.lfoAmplitude
        ∧ (applyParams engineEx bp).lfoFrequency = engineEx.lfoFrequency) :=
  ⟨rfl, runSimulatedAnnealing_frame jsMathEx engineEx none 1 randEx rfl⟩

/-!
## Analyzer: data model

The analyzer consumes a decoded PCM buffer (channel-major sample
lists plus a sample rate); the byte-stream decode itself is a
collaborator's job.  `Math` functions are again taken from a `JsMath`
bundle.
-/

/-- A decoded `AudioBuffer`: channel-major rational samples. -/
structure Buffer where
  channels : List (List ℚ)
  sampleRate : ℚ
deriving DecidableEq

/-- `audioBuffer.getChannelData(c)` (a missing channel reads as
empty). -/
def getChannelData (b : Buffer) (c : ℕ) : List ℚ :=
  b.channels.getD c []

/-- A file handed to `analyze`: its byte size plus its decoded
buffer. -/
structure AudioFile where
  size : ℕ
  buffer : Buffer

/-- The errors `analyze` can throw: the size guard of `validateFile`,
the silence guard of `checkSilence`, and the zero-peak guard of
`normalizeBuffer`. -/
inductive AnalyzerErr
  | tooLarge
  | silentAudio
  | normalizeSilent
deriving DecidableEq

/-- A Spectrum: magnitude/frequency pairs plus provenance. -/
structure Spectrum where
  magnitudes : List ℚ
  frequencies : List ℚ
  sampleRate : ℚ
  fftSize : ℕ

/-- The wide pitch window and the narrow texture window at one
temporal position. -/
structure SnapPair where
  pitch : Spectrum
  texture : Spectrum

/-- The early (20 %) and late (80 %) snapshot pairs. -/
structure Snapshots where
  early : SnapPair
  late : SnapPair

/-- The three gatekeeper classifications. -/
structure Gatekeepers where
  isFM : Bool
  isOrganic : Bool
  isWide : Bool

/-- The analyze() result record (`this.results`); `pitchHz` and
`detectedOctave` are `Option` because the pitch detector can produce
`NaN`. -/
structure Descriptor where
  pitchHz : Option ℚ
  detectedOctave : Option ℤ
  detectedRelease : ℚ
  amplitude : ℚ
  duration : ℚ
  sampleRate : ℚ
  isFM : Bool
  isOrganic : Bool
  isWide : Bool
  snapshots : Snapshots
  audioBuffer : Buffer

/-- `MAX_FILE_SIZE = 10 * 1024 * 1024`. -/
def MAX_FILE_SIZE : ℕ := 10 * 1024 * 1024

/-- `SILENCE_THRESHOLD_DB = -60`. -/
def SILENCE_THRESHOLD_DB : ℚ := -60

/-- `NORMALIZE_TARGET_DB = -3`. -/
def NORMALIZE_TARGET_DB : ℚ := -3

/-- `dbToLinear(db) = Math.pow(10, db / 20)`. -/
def dbToLinear (m : JsMath) (db : ℚ) : ℚ :=
  m.powq 10 (db / 20)

/-- `linearToDb(linear) = 20 * Math.log10(Math.max(linear, 1e-10))`. -/
def linearToDb (m : JsMath) (linear : ℚ) : ℚ :=
  20 * m.log10q (max linear (1 / 10 ^ 10))

/-!
## Analyzer: normalization and the silence gate
-/

/-- The peak absolute amplitude over all channels, the first loop of
`normalizeBuffer` (accumulator starts at 0). -/
def maxAmplitude (b : Buffer) : ℚ :=
  b.channels.foldl (fun acc ch => ch.foldl (fun a x => max a |x|) acc) 0

/-- `normalizeBuffer(audioBuffer, targetDb)`: throw on an all-zero
buffer, otherwise scale every sample of every channel by
`dbToLinear(targetDb) / maxAmplitude` into a fresh buffer. -/
def normalizeBuffer (m : JsMath) (b : Buffer) (targetDb : ℚ) : Except AnalyzerErr Buffer :=
  if maxAmplitude b = 0 then Except.error AnalyzerErr.normalizeSilent
  else
    Except.ok
      { channels := b.channels.map (fun ch => ch.map (fun x => x * (dbToLinear m targetDb / maxAmplitude b)))
        sampleRate := b.sampleRate }

/-- The RMS of channel 0, as computed by `checkSilence`. -/
def rmsOfChannel0 (m : JsMath) (b : Buffer) : ℚ :=
  let ch := getChannelData b 0
  m.sqrtq ((ch.foldl (fun a x => a + x * x) 0) / (ch.length : ℚ))

/-- `checkSilence(audioBuffer)`: throw when the RMS-derived dB level
of channel 0 is below -60 dBFS, else return that level. -/
def checkSilence (m : JsMath) (b : Buffer) : Except AnalyzerErr ℚ :=
  if linearToDb m (rmsOfChannel0 m b) < SILENCE_THRESHOLD_DB then
    Except.error AnalyzerErr.silentAudio
  else Except.ok (linearToDb m (rmsOfChannel0 m b))

/-!
## Analyzer: windowed radix-2 FFT (`computeFFT` / `fft`)

The in-place loops are embedded as folds over explicit index ranges;
the inner Gold–Rader `while` loop and the doubling pass loop carry a
fuel argument that exceeds their iteration count on every terminating
JavaScript run.
-/

/-- Swap two array slots. -/
def fftSwap (l : List ℚ) (i j : ℕ) : List ℚ :=
  (l.set i (l.getD j 0)).set j (l.getD i 0)

/-- The bit-reversal inner `while (k <= j) { j -= k; k >>= 1 }`. -/
def bitrevInner : ℕ → ℕ → ℕ → ℕ × ℕ
  | 0, k, j => (k, j)
  | fuel + 1, k, j => if k ≤ j then bitrevInner fuel (k / 2) (j - k) else (k, j)

/-- The bit-reversal permutation pass of `fft`. -/
def bitrevPass (n : ℕ) (re im : List ℚ) : List ℚ × List ℚ :=
  let r := (List.range (n - 1)).foldl
    (fun st i =>
      let re1 := if i < st.2.2 then fftSwap st.1 i st.2.2 else st.1
      let im1 := if i < st.2.2 then fftSwap st.2.1 i st.2.2 else st.2.1
      let kj := bitrevInner (n + 2) (n / 2) st.2.2
      (re1, im1, kj.2 + kj.1))
    (re, im, 0)
  (r.1, r.2.1)

/-- One butterfly of the innermost `k` loop, carrying the rotating
twiddle factor. -/
def butterflyK (wR wI : ℚ) (lenHalf i : ℕ) (st : List ℚ × List ℚ × ℚ × ℚ) (k : ℕ) :
    List ℚ × List ℚ × ℚ × ℚ :=
  let re := st.1
  let im := st.2.1
  let curR := st.2.2.1
  let curI := st.2.2.2
  let evenIdx := i + k
  let oddIdx := i + k + lenHalf
  let tR := curR * re.getD oddIdx 0 - curI * im.getD oddIdx 0
  let tI := curR * im.getD oddIdx 0 + curI * re.getD oddIdx 0
  let reEven := re.getD evenIdx 0
  let imEven := im.getD evenIdx 0
  let re2 := (re.set oddIdx (reEven - tR)).set evenIdx (reEven + tR)
  let im2 := (im.set oddIdx (imEven - tI)).set evenIdx (imEven + tI)
  (re2, im2, curR * wR - curI * wI, curR * wI + curI * wR)

/-- The sub-transform loop for one pass length `len`. -/
def butterflyLen (m : JsMath) (n len : ℕ) (re im : List ℚ) : List ℚ × List ℚ :=
  let wR := m.cosq (-2 * m.piq / len)
  let wI := m.sinq (-2 * m.piq / len)
  (List.range ((n + len - 1) / len)).foldl
    (fun p idx =>
      let r := (List.range (len / 2)).foldl (butterflyK wR wI (len / 2) (idx * len))
        (p.1, p.2, 1, 0)
      (r.1, r.2.1))
    (re, im)

/-- The outer `for (len = 2; len <= n; len <<= 1)` pass loop. -/
def butterflyPasses (m : JsMath) (n : ℕ) : ℕ → ℕ → List ℚ → List ℚ → List ℚ × List ℚ
  | 0, _, re, im => (re, im)
  | fuel + 1, len, re, im =>
    if len ≤ n then
      let p := butterflyLen m n len re im
      butterflyPasses m n fuel (len * 2) p.1 p.2
    else (re, im)

/-- `fft(real, imag)`: bit-reversal permutation followed by the
iterative butterfly passes; arrays of length ≤ 1 are untouched. -/
def fft (m : JsMath) (re im : List ℚ) : List ℚ × List ℚ :=
  let n := re.length
  if n ≤ 1 then (re, im)
  else
    let p := bitrevPass n re im
    butterflyPasses m n (n + 2) 2 p.1 p.2

/-- `computeFFT(samples, sampleRate)`: Hann-window the samples, run
the FFT, keep the non-redundant half as magnitude/frequency pairs. -/
def computeFFT (m : JsMath) (samples : List ℚ) (sampleRate : ℚ) : Spectrum :=
  let fftSize := samples.length
  let windowed := (List.range fftSize).map
    (fun i => samples.getD i 0 * (1/2 - 1/2 * m.cosq (2 * m.piq * i / fftSize)))
  let p := fft m windowed (List.replicate fftSize 0)
  { magnitudes := (List.range (fftSize / 2)).map
      (fun i => m.sqrtq (p.1.getD i 0 * p.1.getD i 0 + p.2.getD i 0 * p.2.getD i 0))
    frequencies := (List.range (fftSize / 2)).map
      (fun i => (i : ℚ) * sampleRate / fftSize)
    sampleRate := sampleRate
    fftSize := fftSize }

/-!
## Analyzer: dual snapshots, pitch, octave, release, amplitude
-/

/-- The window extractor of `getDualSnapshots`: a symmetric window
around `position`, zero-padded to `fftSize` when it runs past the
buffer bounds. -/
def getSpectrumAt (m : JsMath) (ch : List ℚ) (sr : ℚ) (position fftSize : ℕ) : Spectrum :=
  let start := position - fftSize / 2
  let endIdx := min ch.length (start + fftSize)
  let slice := (ch.drop start).take (endIdx - start)
  let padded :=
    if slice.length < fftSize then slice ++ List.replicate (fftSize - slice.length) 0
    else slice
  computeFFT m padded sr

/-- `getDualSnapshots(audioBuffer)`: 4096-sample pitch windows and
1024-sample texture windows at 20 % and 80 % of channel 0. -/
def getDualSnapshots (m : JsMath) (b : Buffer) : Snapshots :=
  let ch := getChannelData b 0
  let pos20 := Int.toNat (Int.floor ((ch.length : ℚ) * (2/10)))
  let pos80 := Int.toNat (Int.floor ((ch.length : ℚ) * (8/10)))
  { early :=
      { pitch := getSpectrumAt m ch b.sampleRate pos20 4096
        texture := getSpectrumAt m ch b.sampleRate pos20 1024 }
    late :=
      { pitch := getSpectrumAt m ch b.sampleRate pos80 4096
        texture := getSpectrumAt m ch b.sampleRate pos80 1024 } }

/-- `detectPitch(spectrum)`: peak search restricted to (50 Hz,
2000 Hz), then parabolic 3-point interpolation around the peak; the
interpolation divides by `2*(y0 - 2*y1 + y2)` with no epsilon guard,
so a vanishing denominator yields a non-finite pitch (`none`).  A
boundary peak skips interpolation. -/
def detectPitch (s : Spectrum) : Option ℚ :=
  let peak := (List.range' 1 (s.magnitudes.length - 1 - 1)).foldl
    (fun acc i =>
      if 50 < s.frequencies.getD i 0 ∧ s.frequencies.getD i 0 < 2000 then
        if acc.1 < s.magnitudes.getD i 0 then (s.magnitudes.getD i 0, i) else acc
      else acc)
    ((0 : ℚ), (0 : ℕ))
  let peakIdx := peak.2
  if 0 < peakIdx ∧ peakIdx < s.magnitudes.length - 1 then
    let y0 := s.magnitudes.getD (peakIdx - 1) 0
    let y1 := s.magnitudes.getD peakIdx 0
    let y2 := s.magnitudes.getD (peakIdx + 1) 0
    (jsDiv (y0 - y2) (2 * (y0 - 2 * y1 + y2))).map
      (fun delta => s.frequencies.getD peakIdx 0
        + delta * (s.frequencies.getD 1 0 - s.frequencies.getD 0 0))
  else some (s.frequencies.getD peakIdx 0)

/-- `frequencyToOctave(frequency)`: MIDI note mapping with fallback
octave 2 for non-positive input; a `NaN` frequency propagates (the
`frequency <= 0` guard is false on `NaN`). -/
def frequencyToOctave (m : JsMath) (frequency : Option ℚ) : Option ℤ :=
  match frequency with
  | none => none
  | some f =>
    if f ≤ 0 then some 2
    else some (Int.floor ((12 * m.log2q (f / 440) + 69) / 12) - 1)

/-- RMS of the 10 ms window starting at sample `i`. -/
def windowRmsAt (m : JsMath) (ch : List ℚ) (i ws : ℕ) : ℚ :=
  m.sqrtq (((List.range ws).foldl (fun a j => a + ch.getD (i + j) 0 * ch.getD (i + j) 0) 0) / (ws : ℚ))

/-- The peak scan of `measureRelease`: peak absolute amplitude and the
index of its first occurrence. -/
def peakScan (ch : List ℚ) : ℚ × ℕ :=
  (List.range ch.length).foldl
    (fun acc i => if acc.1 < |ch.getD i 0| then (|ch.getD i 0|, i) else acc)
    (0, 0)

/-- `measureRelease(audioBuffer)`: walk 10 ms RMS windows forward from
the peak, record the first drops below -6 dB and -60 dB of peak;
release time is their gap clamped to [0.01 s, 5 s], fallback 0.5 s
when either threshold is never crossed (the loop's early `break` is
modelled by freezing the accumulator once the -60 dB mark is set). -/
def measureRelease (m : JsMath) (b : Buffer) : ℚ :=
  let ch := getChannelData b 0
  let sr := b.sampleRate
  let pk := peakScan ch
  let threshold6 := pk.1 * dbToLinear m (-6)
  let threshold60 := pk.1 * dbToLinear m (-60)
  let ws := Int.toNat (Int.floor (sr * (1/100)))
  let total := if ws = 0 then 0 else (ch.length - ws - pk.2 + ws - 1) / ws
  let res := (List.range total).foldl
    (fun st idx =>
      if (st.2 : Option ℕ).isSome then st
      else
        let i := pk.2 + idx * ws
        let rms := windowRmsAt m ch i ws
        let start6 := if st.1 = none ∧ rms < threshold6 then some i else st.1
        let end60 := if start6 ≠ none ∧ rms < threshold60 then some i else st.2
        (start6, end60))
    ((none : Option ℕ), (none : Option ℕ))
  match res with
  | (some s, some e) => max (1/100) (min 5 (((e : ℚ) - (s : ℚ)) / sr))
  | _ => 1/2

/-- Ascending insertion, modelling `Array.prototype.sort` with the
numeric comparator. -/
def insertAsc (x : ℚ) : List ℚ → List ℚ
  | [] => [x]
  | y :: ys => if x ≤ y then x :: y :: ys else y :: insertAsc x ys

/-- Ascending sort. -/
def sortAsc (l : List ℚ) : List ℚ :=
  l.foldr insertAsc []

/-- `get90thPercentileAmplitude(audioBuffer)`: RMS over consecutive
512-sample windows, sorted ascending, value at the 90th-percentile
index; `|| 0.5` makes both a missing and a zero value fall back to
0.5. -/
def get90thPercentileAmplitude (m : JsMath) (b : Buffer) : ℚ :=
  let ch := getChannelData b 0
  let ws : ℕ := 512
  let total := (ch.length - ws + ws - 1) / ws
  let amplitudes := (List.range total).map (fun idx => windowRmsAt m ch (idx * ws) ws)
  let sorted := sortAsc amplitudes
  let idx := amplitudes.length * 9 / 10
  let v := sorted.getD idx 0
  if v = 0 then 1/2 else v

/-!
## Analyzer: gatekeeper classification
-/

/-- `countHarmonics(spectrum, fundamental)`: how many of harmonics
2..8 have a bin within ±20 Hz whose magnitude exceeds 10 % of the
spectrum's maximum; a `NaN` fundamental finds nothing. -/
def countHarmonics (fundamental : Option ℚ) (s : Spectrum) : ℕ :=
  let threshold := (s.magnitudes.maximum.getD 0) * (1/10)
  match fundamental with
  | none => 0
  | some f0 =>
    (List.range' 2 7).foldl
      (fun c h =>
        if (List.range s.frequencies.length).any
            (fun i => decide (|s.frequencies.getD i 0 - f0 * h| < 20)
              && decide (threshold < s.magnitudes.getD i 0)) then
          c + 1
        else c)
      0

/-- `spectralFlatness(spectrum)`: geometric over arithmetic mean of
the magnitudes, both epsilon-shifted. -/
def spectralFlatness (m : JsMath) (s : Spectrum) : ℚ :=
  let logMean := (s.magnitudes.foldl (fun a b => a + m.logq (b + 1 / 10 ^ 10)) 0)
    / (s.magnitudes.length : ℚ)
  let arithmeticMean := (s.magnitudes.foldl (fun a b => a + b) 0) / (s.magnitudes.length : ℚ)
  m.expq logMean / (arithmeticMean + 1 / 10 ^ 10)

/-- `computeSpread(spectrum)`: magnitude-weighted standard deviation
of frequency around the spectral centroid; 0 on an all-zero
spectrum. -/
def computeSpread (m : JsMath) (s : Spectrum) : ℚ :=
  let total := s.magnitudes.foldl (fun a b => a + b) 0
  if total = 0 then 0
  else
    let centroid := ((List.range s.magnitudes.length).foldl
      (fun a i => a + s.frequencies.getD i 0 * s.magnitudes.getD i 0) 0) / total
    let spread := (List.range s.magnitudes.length).foldl
      (fun a i => a + s.magnitudes.getD i 0 * (s.frequencies.getD i 0 - centroid) ^ 2) 0
    m.sqrtq (spread / total)

/-- `computeGatekeepers(snapshots)`. -/
def computeGatekeepers (m : JsMath) (snaps : Snapshots) : Gatekeepers :=
  let fundamentalFreq := detectPitch snaps.early.pitch
  let harmonics := countHarmonics fundamentalFreq snaps.early.pitch
  let flatness := spectralFlatness m snaps.early.texture
  let spread := computeSpread m snaps.early.texture
  { isFM := decide (4 ≤ harmonics)
    isOrganic := decide ((1/10 : ℚ) < flatness)
    isWide := decide ((500 : ℚ) < spread) }

/-!
## Analyzer: the `analyze` pipeline
-/

/-- `audioBuffer.duration = length / sampleRate`. -/
def bufferDuration (b : Buffer) : ℚ :=
  ((getChannelData b 0).length : ℚ) / b.sampleRate

/-- `validateFile(file)`: throw on an oversized file (the type check
only warns). -/
def validateFile (f : AudioFile) : Except AnalyzerErr Bool :=
  if MAX_FILE_SIZE < f.size then Except.error AnalyzerErr.tooLarge else Except.ok true

/-- The descriptor `analyze` assembles from the normalized buffer:
snapshots, pitch, octave, release, amplitude, gatekeepers. -/
def descriptorOf (m : JsMath) (nb : Buffer) : Descriptor :=
  let snapshots := getDualSnapshots m nb
  let pitchHz := detectPitch snapshots.early.pitch
  let g := computeGatekeepers m snapshots
  { pitchHz := pitchHz
    detectedOctave := frequencyToOctave m pitchHz
    detectedRelease := measureRelease m nb
    amplitude := get90thPercentileAmplitude m nb
    duration := bufferDuration nb
    sampleRate := nb.sampleRate
    isFM := g.isFM
    isOrganic := g.isOrganic
    isWide := g.isWide
    snapshots := snapshots
    audioBuffer := nb }

/-- `analyze(file)` from the decoded buffer onward: validate the size,
check silence on the raw buffer, normalize to -3 dBFS, then compute
the snapshots and every descriptor field from the normalized
buffer. -/
def analyze (m : JsMath) (f : AudioFile) : Except AnalyzerErr Descriptor :=
  match validateFile f with
  | Except.error e => Except.error e
  | Except.ok _ =>
    match checkSilence m f.buffer with
    | Except.error e => Except.error e
    | Except.ok _db =>
      match normalizeBuffer m f.buffer NORMALIZE_TARGET_DB with
      | Except.error e => Except.error e
      | Except.ok nb => Except.ok (descriptorOf m nb)

/-!
## Helper lemmas about peak scaling and the silence gate
-/

theorem le_foldl_max_abs (l : List ℚ) : ∀ a, a ≤ l.foldl (fun acc x => max acc |x|) a := by
  induction l with
  | nil => intro a; exact le_refl a
  | cons x xs ih =>
    intro a
    exact le_trans (le_max_left a |x|) (ih (max a |x|))

theorem mem_le_foldl_max_abs (l : List ℚ) (x : ℚ) (hx : x ∈ l) :
    ∀ a, |x| ≤ l.foldl (fun acc x => max acc |x|) a := by
  induction l with
  | nil => exact absurd hx (List.not_mem_nil x)
  | cons y ys ih =>
    intro a
    rcases List.mem_cons.mp hx with h | h
    · rw [h]
      exact le_trans (le_max_right a |y|) (le_foldl_max_abs ys (max a |y|))
    · exact ih h (max a |y|)

theorem le_foldl_channels (chs : List (List ℚ)) :
    ∀ a, a ≤ chs.foldl (fun acc ch => ch.foldl (fun a x => max a |x|) acc) a := by
  induction chs with
  | nil => intro a; exact le_refl a
  | cons c cs ih =>
    intro a
    exact le_trans (le_foldl_max_abs c a) (ih _)

theorem mem_le_maxAmplitude (b : Buffer) (ch : List ℚ) (x : ℚ)
    (hch : ch ∈ b.channels) (hx : x ∈ ch) : |x| ≤ maxAmplitude b := by
  unfold maxAmplitude
  have hgen : ∀ (chs : List (List ℚ)), ch ∈ chs → ∀ a,
      |x| ≤ chs.foldl (fun acc ch => ch.foldl (fun a x => max a |x|) acc) a := by
    intro chs
    induction chs with
    | nil => intro h; exact absurd h (List.not_mem_nil ch)
    | cons c cs ih =>
      intro h a
      rcases List.mem_cons.mp h with h | h
      · rw [← h]
        exact le_trans (mem_le_foldl_max_abs ch x hx a) (le_foldl_channels cs _)
      · exact ih h _
  exact hgen b.channels hch 0

theorem foldl_sq_zero (l : List ℚ) (h : ∀ x ∈ l, x = 0) :
    ∀ a, l.foldl (fun a x => a + x * x) a = a := by
  induction l with
  | nil => intro a; rfl
  | cons x xs ih =>
    intro a
    rw [List.foldl_cons, h x (List.mem_cons_self x xs), mul_zero, add_zero]
    exact ih (fun y hy => h y (List.mem_cons_of_mem x hy)) a

theorem foldl_max_abs_scale (g : ℚ) (hg : 0 ≤ g) (l : List ℚ) :
    ∀ a, ((l.map (fun x => x * g)).foldl (fun acc x => max acc |x|) (a * g))
      = (l.foldl (fun acc x => max acc |x|) a) * g := by
  induction l with
  | nil => intro a; rfl
  | cons x xs ih =>
    intro a
    simp only [List.map_cons, List.foldl_cons]
    rw [abs_mul, abs_of_nonneg hg, ← max_mul_of_nonneg a |x| hg]
    exact ih (max a |x|)

theorem foldl_channels_scale (g : ℚ) (hg : 0 ≤ g) (chs : List (List ℚ)) :
    ∀ a, ((chs.map (fun ch => ch.map (fun x => x * g))).foldl
        (fun acc ch => ch.foldl (fun a x => max a |x|) acc) (a * g))
      = (chs.foldl (fun acc ch => ch.foldl (fun a x => max a |x|) acc) a) * g := by
  induction chs with
  | nil => intro a; rfl
  | cons c cs ih =>
    intro a
    simp only [List.map_cons, List.foldl_cons]
    rw [foldl_max_abs_scale g hg c a]
    exact ih _

theorem maxAmplitude_scale (b : Buffer) (g : ℚ) (hg : 0 ≤ g) :
    maxAmplitude
      { channels := b.channels.map (fun ch => ch.map (fun x => x * g))
        sampleRate := b.sampleRate }
      = maxAmplitude b * g := by
  unfold maxAmplitude
  have h := foldl_channels_scale g hg b.channels 0
  rw [zero_mul] at h
  exact h

/-!
## Claim C7: normalization scales exactly to the target peak
-/

/-- C7: for every buffer with a positive peak, `normalizeBuffer` at
the default -3 dB target succeeds, scales every sample of every
channel by exactly `dbToLinear(-3) / peak`, and the peak absolute
amplitude of the result is exactly `dbToLinear(-3) = 10^(-3/20)` (the
non-negativity of that target level, true of the real power function,
is taken as a hypothesis on the abstract `Math.pow`). -/
theorem normalizeBuffer_peak (m : JsMath) (b : Buffer)
    (hpeak : 0 < maxAmplitude b) (hpow : 0 ≤ dbToLinear m (-3)) :
    ∃ nb, normalizeBuffer m b (-3) = Except.ok nb
      ∧ nb.channels = b.channels.map
          (fun ch => ch.map (fun x => x * (dbToLinear m (-3) / maxAmplitude b)))
      ∧ nb.sampleRate = b.sampleRate
      ∧ maxAmplitude nb = dbToLinear m (-3) := by
  have hne : maxAmplitude b ≠ 0 := ne_of_gt hpeak
  refine ⟨⟨b.channels.map
      (fun ch => ch.map (fun x => x * (dbToLinear m (-3) / maxAmplitude b))),
      b.sampleRate⟩, ?_, rfl, rfl, ?_⟩
  · unfold normalizeBuffer
    rw [if_neg hne]
  · have hg : 0 ≤ dbToLinear m (-3) / maxAmplitude b := div_nonneg hpow (le_of_lt hpeak)
    rw [maxAmplitude_scale b _ hg, mul_comm, div_mul_cancel₀ _ hne]

/-- Witness for the C7 theorem at a one-sample buffer with peak 1/2
and the concrete `Math` bundle. -/
theorem normalizeBuffer_peak_witness :
    0 < maxAmplitude { channels := [[1/2]], sampleRate := 44100 }
    ∧ 0 ≤ dbToLinear jsMathEx (-3)
    ∧ ∃ nb, normalizeBuffer jsMathEx { channels := [[1/2]], sampleRate := 44100 } (-3)
        = Except.ok nb
      ∧ nb.channels = ([[1/2]] : List (List ℚ)).map
          (fun ch => ch.map (fun x => x * (dbToLinear jsMathEx (-3)
            / maxAmplitude { channels := [[1/2]], sampleRate := 44100 })))
      ∧ nb.sampleRate = 44100
      ∧ maxAmplitude nb = dbToLinear jsMathEx (-3) := by
  have h1 : 0 < maxAmplitude { channels := [[1/2]], sampleRate := 44100 } := by
    norm_num [maxAmplitude]
  have h2 : 0 ≤ dbToLinear jsMathEx (-3) := by
    norm_num [dbToLinear, jsMathEx]
  exact ⟨h1, h2, normalizeBuffer_peak jsMathEx _ h1 h2⟩

/-!
## Claim C6: the silence gate of `analyze`
-/

/-- C6: for a size-valid file, `analyze` fails with the `SilentAudio`
error exactly when the RMS-derived dB level of channel 0 of the raw,
unnormalized input buffer is below -60 dBFS; the normalization-stage
silence throw is unreachable; and a non-silent input always yields a
descriptor.  The two hypotheses on the abstract `Math` bundle
(`sqrt 0 = 0` and `20·log10(1e-10) < -60`) hold of the real
functions. -/
theorem analyze_silentAudio_iff (m : JsMath) (f : AudioFile)
    (hsq : m.sqrtq 0 = 0) (hlog : 20 * m.log10q (1 / 10 ^ 10) < -60)
    (hsz : f.size ≤ MAX_FILE_SIZE) :
    (analyze m f = Except.error AnalyzerErr.silentAudio
      ↔ linearToDb m (rmsOfChannel0 m f.buffer) < SILENCE_THRESHOLD_DB)
    ∧ analyze m f ≠ Except.error AnalyzerErr.normalizeSilent
    ∧ (¬ linearToDb m (rmsOfChannel0 m f.buffer) < SILENCE_THRESHOLD_DB →
        ∃ d, analyze m f = Except.ok d) := by
  have hval : validateFile f = Except.ok true := by
    unfold validateFile
    rw [if_neg (not_lt.mpr hsz)]
  by_cases hc : linearToDb m (rmsOfChannel0 m f.buffer) < SILENCE_THRESHOLD_DB
  · have ha : analyze m f = Except.error AnalyzerErr.silentAudio := by
      unfold analyze checkSilence
      rw [hval, if_pos hc]
    refine ⟨⟨fun _ => hc, fun _ => ha⟩, ?_, fun hnc => absurd hc hnc⟩
    rw [ha]
    intro hcontra
    exact absurd (Except.error.inj hcontra) (by simp)
  · have hmax : maxAmplitude f.buffer ≠ 0 := by
      intro h0
      have hch0 : ∀ x ∈ getChannelData f.buffer 0, x = 0 := by
        intro x hx
        rcases hbc : f.buffer.channels with _ | ⟨c, cs⟩
        · rw [getChannelData, hbc] at hx
          exact absurd hx (List.not_mem_nil x)
        · have hc0 : getChannelData f.buffer 0 = c := by
            rw [getChannelData, hbc]
            rfl
          rw [hc0] at hx
          have hle := mem_le_maxAmplitude f.buffer c x
            (by rw [hbc]; exact List.mem_cons_self c cs) hx
          rw [h0] at hle
          exact abs_eq_zero.mp (le_antisymm hle (abs_nonneg x))
      have hrms : rmsOfChannel0 m f.buffer = 0 := by
        show m.sqrtq ((getChannelData f.buffer 0).foldl (fun a x => a + x * x) 0
          / ((getChannelData f.buffer 0).length : ℚ)) = 0
        rw [foldl_sq_zero _ hch0 0, zero_div, hsq]
      have hdb : linearToDb m (rmsOfChannel0 m f.buffer) < SILENCE_THRESHOLD_DB := by
        rw [hrms]
        unfold linearToDb SILENCE_THRESHOLD_DB
        rw [max_eq_right (by norm_num : (0:ℚ) ≤ 1 / 10 ^ 10)]
        exact hlog
      exact hc hdb
    have hsil : checkSilence m f.buffer
        = Except.ok (linearToDb m (rmsOfChannel0 m f.buffer)) := by
      unfold checkSilence
      rw [if_neg hc]
    have hnorm : ∃ nb, normalizeBuffer m f.buffer NORMALIZE_TARGET_DB = Except.ok nb := by
      unfold normalizeBuffer
      rw [if_neg hmax]
      exact ⟨_, rfl⟩
    obtain ⟨nb, hnb⟩ := hnorm
    have ha : analyze m f = Except.ok (descriptorOf m nb) := by
      unfold analyze
      rw [hval, hsil, hnb]
    have hd : ∃ d, analyze m f = Except.ok d := ⟨descriptorOf m nb, ha⟩
    obtain ⟨d, ha⟩ := hd
    refine ⟨⟨fun hcontra => ?_, fun hcond => absurd hcond hc⟩, ?_, fun _ => ⟨d, ha⟩⟩
    · rw [ha] at hcontra
      exact absurd hcontra (by simp)
    · rw [ha]
      intro hcontra
      exact absurd hcontra (by simp)

/-- Witness for the C6 theorem: an all-zero four-sample buffer in a
small file, with the concrete `Math` bundle (identity square root,
constant -10 base-10 logarithm): `analyze` rejects it as silent. -/
theorem analyze_silentAudio_iff_witness :
    jsMathEx.sqrtq 0 = 0
    ∧ 20 * jsMathEx.log10q (1 / 10 ^ 10) < -60
    ∧ (100 : ℕ) ≤ MAX_FILE_SIZE
    ∧ ((analyze jsMathEx ⟨100, ⟨[[0, 0, 0, 0]], 44100⟩⟩ = Except.error AnalyzerErr.silentAudio
        ↔ linearToDb jsMathEx (rmsOfChannel0 jsMathEx ⟨[[0, 0, 0, 0]], 44100⟩)
            < SILENCE_THRESHOLD_DB)
      ∧ analyze jsMathEx ⟨100, ⟨[[0, 0, 0, 0]], 44100⟩⟩
          ≠ Except.error AnalyzerErr.normalizeSilent
      ∧ (¬ linearToDb jsMathEx (rmsOfChannel0 jsMathEx ⟨[[0, 0, 0, 0]], 44100⟩)
            < SILENCE_THRESHOLD_DB →
          ∃ d, analyze jsMathEx ⟨100, ⟨[[0, 0, 0, 0]], 44100⟩⟩ = Except.ok d)) :=
  ⟨rfl, by norm_num [jsMathEx], by norm_num [MAX_FILE_SIZE],
    analyze_silentAudio_iff jsMathEx ⟨100, ⟨[[0, 0, 0, 0]], 44100⟩⟩ rfl
      (by norm_num [jsMathEx]) (by norm_num [MAX_FILE_SIZE])⟩

/-!
## Claim C8: the unguarded parabolic-interpolation division
-/

/-- C8 (code evaluated at the failing input): the parabolic
interpolation of `detectPitch` divides by `2*(y0 - 2*y1 + y2)` with no
epsilon guard.  On a spectrum whose in-range peak has equal
neighbours — magnitudes `[1,1,1,1]` over frequencies
`[0,100,200,300]` — the peak lands at index 1, the denominator is
`2*(1 - 2 + 1) = 0`, and the returned pitch is `0/0 = NaN`
(modelled as `none`), contradicting the spec's guarantee that the
division is epsilon-guarded and never yields `NaN`/`Infinity`. -/
theorem detectPitch_nan_on_flat_peak :
    detectPitch
      { magnitudes := [1, 1, 1, 1], frequencies := [0, 100, 200, 300],
        sampleRate := 800, fftSize := 8 } = none := by
  rw [detectPitch]
  norm_num [List.range', List.getD, jsDiv, List.getElem?_cons_zero, List.getElem?_cons_succ,
    Option.getD, List.getElem_cons_zero, List.getElem_cons_succ]
  have hx : ([1, 1, 1, 1] : List ℚ)[1] = 1 := rfl
  intro hden
  exact absurd (by rw [hx]; norm_num) hden
